import Mathlib

/-!
Verification of the ChatCraft Studio content-ingestion and retrieval core.

This file gives a shallow embedding, in Lean 4, of the parts of the
backend that the specification's testable properties talk about:

* the text chunker (`backend/processors/__init__.py`,
  `BaseProcessor.chunk_content` / `_smart_chunk_text`);
* the quota ledger and content-source lifecycle
  (`backend/services/content_service.py`);
* the ingestion pipeline's failure handling
  (`_process_content_source` / `_process_queue`);
* the vector-store search path, result post-processing, hybrid score
  combination and the keyed upsert
  (`backend/services/vector_service.py`).

Texts are modelled as `List Char` (Python `str` with integer indexing),
similarity scores and weights as `ℚ` (Python floats carry no rounding
relevant to the verified properties), SQL integer columns as `ℤ`, and
database tables as Lean lists of records.  Fallible operations return
their updated database together with an `Except` result, mirroring the
service methods that either commit or raise `HTTPException`.
-/

/-! ### Chunker: `BaseProcessor._smart_chunk_text` and `chunk_content`

`_smart_chunk_text` slides a window of `chunk_size` characters over the
text; before cutting it searches backward (Python `str.rfind`) for the
nearest natural boundary among `['. ', '\n\n', '\n', '! ', '? ']`,
accepting a boundary only past the window midpoint, and restarts the
next window `overlap_size` characters before the accepted cut.

The Python `while` loop has no a-priori termination bound, so the loop
is embedded with explicit fuel; `smartChunkText` supplies
`text.length + 1` units, which is proved sufficient whenever each
iteration makes progress (`smartChunkAux_total`).  A `none` result
means the Python loop does not terminate on that input, which the
divergence lemma `smartChunkAux_badInput_stuck` establishes
independently of the chosen fuel for the counterexample input.
-/

/-- `text[a:b]` for `0 ≤ a ≤ b` (Python slice on non-negative indices). -/
def listSlice (text : List Char) (a b : Nat) : List Char :=
  (text.drop a).take (b - a)

/-- `pat` occurs in `text` at index `i` (the full pattern fits and matches).
For non-empty `pat` the slice comparison enforces `i + pat.length ≤ text.length`. -/
def occursAt (text pat : List Char) (i : Nat) : Bool :=
  listSlice text i (i + pat.length) == pat

/-- Largest `i < n` with `a ≤ i`, `i + pat.length ≤ b` and an occurrence of
`pat` at `i`; scans downward like Python's `str.rfind(pat, a, b)`. -/
def pyRfindAux (text pat : List Char) (a b : Nat) : Nat → Option Nat
  | 0 => none
  | n + 1 =>
    if a ≤ n && n + pat.length ≤ b && occursAt text pat n then some n
    else pyRfindAux text pat a b n

/-- Python `text.rfind(pat, a, b)`: index of the last occurrence of `pat`
lying fully inside `text[a:b]`, or `none` (Python `-1`). -/
def pyRfind (text pat : List Char) (a b : Nat) : Option Nat :=
  pyRfindAux text pat a b b

/-- The natural break points of `_smart_chunk_text`, in priority order:
`['. ', '\n\n', '\n', '! ', '? ']`. -/
def breakPoints : List (List Char) :=
  [['.', ' '], ['\n', '\n'], ['\n'], ['!', ' '], ['?', ' ']]

/-- The `for break_point in break_points` loop: the first break point whose
last occurrence in `text[start:end]` lies strictly past `start + chunk_size // 2`
yields the cut `last_break + len(break_point)`; otherwise the cut stays at `e`. -/
def bestBreakGo (text : List Char) (s e cs : Nat) : List (List Char) → Nat
  | [] => e
  | bp :: rest =>
    match pyRfind text bp s e with
    | some i => if s + cs / 2 < i then i + bp.length else bestBreakGo text s e cs rest
    | none => bestBreakGo text s e cs rest

/-- The accepted cut position for the window `[s, e)` (`best_break`). -/
def bestBreak (text : List Char) (s e cs : Nat) : Nat :=
  bestBreakGo text s e cs breakPoints

/-- The next window start:
`start = best_break - overlap_size if best_break > overlap_size else best_break`. -/
def nextStart (text : List Char) (cs os start : Nat) : Nat :=
  if os < bestBreak text start (start + cs) cs
  then bestBreak text start (start + cs) cs - os
  else bestBreak text start (start + cs) cs

/-- One fuelled unfolding of the `while start < len(text)` loop of
`_smart_chunk_text`.  Returns `none` when the fuel runs out before the
loop exits (i.e. the Python loop ran longer than the given bound). -/
def smartChunkAux (text : List Char) (cs os : Nat) : Nat → Nat → Option (List (List Char))
  | 0, _ => none
  | fuel + 1, start =>
    if start < text.length then
      if text.length ≤ start + cs then some [listSlice text start text.length]
      else
        match smartChunkAux text cs os fuel (nextStart text cs os start) with
        | none => none
        | some rest =>
          some (listSlice text start (bestBreak text start (start + cs) cs) :: rest)
    else some []

/-- `BaseProcessor._smart_chunk_text(text, chunk_size, overlap_size)`:
one chunk when the text fits, otherwise the window loop (with fuel
`text.length + 1`, sufficient whenever the loop terminates). -/
def smartChunkText (text : List Char) (cs os : Nat) : Option (List (List Char)) :=
  if text.length ≤ cs then some [text]
  else smartChunkAux text cs os (text.length + 1) 0

/-- Default `chunk_size` of `BaseProcessor` (characters). -/
def chunkSizeDefault : Nat := 1000

/-- Default `overlap_size` of `BaseProcessor` (characters). -/
def overlapSizeDefault : Nat := 200

/-- Content projection of `BaseProcessor.chunk_content`: the guard
`if not text: return []` followed by `_smart_chunk_text`.  `cs`/`os` are
the already-resolved `config.get('chunk_size', 1000)` /
`config.get('overlap_size', 200)` values; the per-chunk title, metadata
and keyword decoration (which leave chunk contents untouched) is omitted. -/
def chunkContent (text : List Char) (cs os : Nat) : Option (List (List Char)) :=
  if text = [] then some []
  else smartChunkText text cs os

/-- A 25-character text without any natural break point, used to exhibit
the divergence of `_smart_chunk_text` at `chunk_size = overlap_size = 10`. -/
def badChunkInput : List Char := "abcdefghijklmnopqrstuvwxy".data

/-! ### Quota ledger and content-source lifecycle (`content_service.py`)

SQL integer columns are `ℤ`; timestamps are days as `ℤ` (`datetime.now()`
becomes the explicit `now` argument, `timedelta(days=30)` the literal 30).
Each operation returns its committed database next to the value or the
raised `HTTPException`, whose payload is abstracted into `SvcError`
(the human-readable `detail` strings are elided, status codes kept). -/

/-- `ContentSource.status` values (`ProcessingStatus` enum). -/
inductive ProcStatus
  | pending
  | processing
  | chunking
  | embedding
  | completed
  | failed
  | retry
deriving DecidableEq

/-- `tenants` row: quota columns and usage counters of the `Tenant` model. -/
structure Tenant where
  id : String
  maxDocuments : Int
  maxStorageMb : Int
  maxMonthlyQueries : Int
  documentCount : Int
  storageUsedMb : Int
  monthlyQueriesUsed : Int
  lastQueryReset : Int
deriving DecidableEq

/-- `content_sources` row (identification strings such as `name`,
`source_url` and `file_path` are elided; `config` is resolved at the
call sites that read it). -/
structure ContentSource where
  id : String
  tenantId : String
  contentType : String
  status : ProcStatus
  progressPercentage : Nat
  errorMessage : Option String
  fileSizeMb : Nat
  totalChunks : Nat
  processedChunks : Nat
deriving DecidableEq

/-- `content_chunks` row (`tenant_id` denormalized onto the chunk). -/
structure ContentChunkRow where
  id : String
  sourceId : String
  tenantId : String
  content : List Char
  chunkIndex : Nat
deriving DecidableEq

/-- The three tables the verified content-service operations touch. -/
structure ContentDB where
  tenants : List Tenant
  sources : List ContentSource
  chunks : List ContentChunkRow
deriving DecidableEq

/-- The `HTTPException`s raised by the content service, by cause. -/
inductive SvcError
  | tenantNotFound
  | documentLimitReached
  | storageLimitExceeded
  | contentSourceNotFound
deriving DecidableEq

instance {ε α : Type} [DecidableEq ε] [DecidableEq α] : DecidableEq (Except ε α) :=
  fun x y =>
    match x, y with
    | .error a, .error b =>
      if h : a = b then isTrue (by rw [h]) else isFalse (by intro hc; injection hc; contradiction)
    | .error _, .ok _ => isFalse (by intro hc; cases hc)
    | .ok _, .error _ => isFalse (by intro hc; cases hc)
    | .ok a, .ok b =>
      if h : a = b then isTrue (by rw [h]) else isFalse (by intro hc; injection hc; contradiction)

/-- HTTP status code attached to each raised exception. -/
def SvcError.statusCode : SvcError → Nat
  | .tenantNotFound => 404
  | .documentLimitReached => 403
  | .storageLimitExceeded => 403
  | .contentSourceNotFound => 404

/-- `SELECT * FROM tenants WHERE id = tenant_id` (first row). -/
def findTenant (db : ContentDB) (tenantId : String) : Option Tenant :=
  db.tenants.find? (fun t => t.id == tenantId)

/-- `UPDATE tenants SET ... WHERE id = tenant_id`. -/
def updateTenant (db : ContentDB) (tenantId : String) (f : Tenant → Tenant) : ContentDB :=
  { db with tenants := db.tenants.map (fun t => if t.id == tenantId then f t else t) }

/-- The monthly query-counter reset performed inside `check_tenant_quotas`:
`if tenant.last_query_reset < datetime.now() - timedelta(days=30)`. -/
def monthlyReset (now : Int) (t : Tenant) : Tenant :=
  if t.lastQueryReset < now - 30 then
    { t with monthlyQueriesUsed := 0, lastQueryReset := now }
  else t

/-- `ContentIngestionService.check_tenant_quotas`: 404 for a missing tenant,
monthly reset (committed immediately), then the document-count and storage
checks, each raising 403.  On success it returns the tenant usage snapshot
(modelled as the post-reset tenant row). -/
def checkTenantQuotas (db : ContentDB) (now : Int) (tenantId : String)
    (estimatedSizeMb : Int) : ContentDB × Except SvcError Tenant :=
  match findTenant db tenantId with
  | none => (db, .error .tenantNotFound)
  | some t =>
    let t' := monthlyReset now t
    let db' := updateTenant db tenantId (monthlyReset now)
    if t'.maxDocuments ≤ t'.documentCount then (db', .error .documentLimitReached)
    else if t'.maxStorageMb < t'.storageUsedMb + estimatedSizeMb then
      (db', .error .storageLimitExceeded)
    else (db', .ok t')

/-- `ContentIngestionService._update_tenant_usage`: unconditional additive
update of the two ingestion counters (no clamping in the code). -/
def updateTenantUsage (db : ContentDB) (tenantId : String)
    (documents storageMb : Int) : ContentDB :=
  updateTenant db tenantId (fun t =>
    { t with documentCount := t.documentCount + documents,
             storageUsedMb := t.storageUsedMb + storageMb })

/-- `ContentIngestionService.create_content_source`: quota check first, then
the new `ContentSource` row (with `file_size_mb` set to the uploaded size,
0 when no file is uploaded), then `_update_tenant_usage(+1, +size)`.
`uploadedSizeMb` stands for the already-truncated `int(estimated_size)`;
the enqueue onto the processing queue is modelled separately by
`processQueue`. -/
def createContentSource (db : ContentDB) (now : Int) (tenantId : String)
    (newSourceId : String) (contentType : String) (uploadedSizeMb : Option Nat) :
    ContentDB × Except SvcError ContentSource :=
  let estimatedSize : Nat := uploadedSizeMb.getD 0
  match checkTenantQuotas db now tenantId (estimatedSize : Int) with
  | (db1, .error e) => (db1, .error e)
  | (db1, .ok _) =>
    let src : ContentSource :=
      { id := newSourceId, tenantId := tenantId, contentType := contentType,
        status := .pending, progressPercentage := 0, errorMessage := none,
        fileSizeMb := estimatedSize, totalChunks := 0, processedChunks := 0 }
    let db2 := { db1 with sources := db1.sources ++ [src] }
    (updateTenantUsage db2 tenantId 1 (estimatedSize : Int), .ok src)

/-- `SELECT * FROM content_sources WHERE id = source_id AND tenant_id = tenant_id`. -/
def findOwnedSource (db : ContentDB) (tenantId sourceId : String) : Option ContentSource :=
  db.sources.find? (fun s => s.id == sourceId && s.tenantId == tenantId)

/-- `ContentIngestionService.delete_content_source`: 404 unless the source is
owned by the calling tenant; deletes the row (chunks cascade), then
`_update_tenant_usage(-1, -file_size_mb)`.  The row is a primary-key match,
so the filter removes exactly the selected source. -/
def deleteContentSource (db : ContentDB) (tenantId sourceId : String) :
    ContentDB × Except SvcError Unit :=
  match findOwnedSource db tenantId sourceId with
  | none => (db, .error .contentSourceNotFound)
  | some src =>
    let db1 := { db with
      sources := db.sources.filter (fun s => !(s.id == sourceId)),
      chunks := db.chunks.filter (fun c => !(c.sourceId == sourceId)) }
    (updateTenantUsage db1 tenantId (-1) (-(src.fileSizeMb : Int)), .ok ())

/-- `ContentIngestionService.get_tenant_usage`:
`return await self.check_tenant_quotas(tenant_id, 0)`. -/
def getTenantUsage (db : ContentDB) (now : Int) (tenantId : String) :
    ContentDB × Except SvcError Tenant :=
  checkTenantQuotas db now tenantId 0

/-- The sources owned by a tenant. -/
def ownedSources (db : ContentDB) (tenantId : String) : List ContentSource :=
  db.sources.filter (fun s => s.tenantId == tenantId)

/-- The accounting invariant maintained by the ingestion service: a tenant's
usage counters equal the document count and total recorded size of its
sources (established at tenant creation, preserved by `createContentSource`
and `deleteContentSource`). -/
def tenantAccounting (db : ContentDB) (t : Tenant) : Prop :=
  t.documentCount = ((ownedSources db t.id).length : Int) ∧
  t.storageUsedMb = ((ownedSources db t.id).map (fun s => (s.fileSizeMb : Int))).sum

instance (db : ContentDB) (t : Tenant) : Decidable (tenantAccounting db t) := by
  unfold tenantAccounting; infer_instance

/-! ### Ingestion pipeline failure handling
(`_process_content_source` / `_process_queue`)

The extractor (processor dispatch plus `extract_content`) and the chunker
are parameters returning `Except String`: a `.error` is a raised Python
exception carrying `str(e)`.  `_process_content_source` wraps them in a
`try` whose handler records the message and sets `failed`; the model is a
total function, so the consumer loop (`processQueue`, a fold over the FIFO
queue whose `except ...: continue` never aborts) cannot crash. -/

/-- Normalized extractor output (`{text, title, metadata}` projected to the
field the chunker consumes). -/
structure ContentData where
  text : List Char
deriving DecidableEq

/-- `SELECT * FROM content_sources WHERE id = source_id` (no tenant filter,
as in `_process_content_source`). -/
def findSourceById (db : ContentDB) (sourceId : String) : Option ContentSource :=
  db.sources.find? (fun s => s.id == sourceId)

/-- `ContentIngestionService._update_source_status`: sets status, progress
and error message (cleared when no error is supplied, as in the code). -/
def setSourceStatus (db : ContentDB) (sourceId : String) (status : ProcStatus)
    (progress : Nat) (errorMessage : Option String) : ContentDB :=
  { db with sources := db.sources.map (fun s =>
      if s.id == sourceId then
        { s with status := status, progressPercentage := progress,
                 errorMessage := errorMessage }
      else s) }

/-- `ContentIngestionService._save_content_chunks`: inserts one row per chunk
(`chunk_index = i`, tenant id denormalized from the source; the row id is a
surrogate for the uuid default) and updates the source's chunk totals. -/
def saveContentChunks (db : ContentDB) (src : ContentSource)
    (chunks : List (List Char)) : ContentDB :=
  { db with
    chunks := db.chunks ++ chunks.enum.map (fun ic =>
      { id := src.id ++ "#" ++ Nat.repr ic.1, sourceId := src.id,
        tenantId := src.tenantId, content := ic.2, chunkIndex := ic.1 }),
    sources := db.sources.map (fun s =>
      if s.id == src.id then
        { s with totalChunks := chunks.length, processedChunks := chunks.length }
      else s) }

/-- `ContentIngestionService._process_content_source`: fetch the source (a
missing id is only logged), advance `processing → chunking → embedding →
completed` with progress 0/25/50/100, and on any extractor or chunker
exception set `failed` with progress 0 and the exception's message. -/
def processContentSource (ext : ContentSource → Except String ContentData)
    (chk : ContentSource → ContentData → Except String (List (List Char)))
    (db : ContentDB) (sourceId : String) : ContentDB :=
  match findSourceById db sourceId with
  | none => db
  | some src =>
    let db1 := setSourceStatus db sourceId .processing 0 none
    match ext src with
    | .error e => setSourceStatus db1 sourceId .failed 0 (some e)
    | .ok contentData =>
      let db2 := setSourceStatus db1 sourceId .chunking 25 none
      match chk src contentData with
      | .error e => setSourceStatus db2 sourceId .failed 0 (some e)
      | .ok chunks =>
        let db3 := setSourceStatus db2 sourceId .embedding 50 none
        setSourceStatus (saveContentChunks db3 src chunks) sourceId .completed 100 none

/-- `ContentIngestionService._process_queue`: the single serial consumer
draining the FIFO queue; each source is processed once, failures are caught
per source and the loop continues with the next id. -/
def processQueue (ext : ContentSource → Except String ContentData)
    (chk : ContentSource → ContentData → Except String (List (List Char)))
    (db : ContentDB) (queue : List String) : ContentDB :=
  queue.foldl (processContentSource ext chk) db

/-! ### Vector store, retrieval and hybrid scoring (`vector_service.py`)

A stored point is the `{id, vector, properties}` triple upserted by
`QdrantProvider.upsert_vectors`, with the payload projected to the fields
the verified properties consult (`tenant_id`, `chunk_id`).  The cosine
similarity the backend computes for a query embedding is abstracted as an
arbitrary `score` function on stored points; searches rank by it.
Similarity scores and weights are `ℚ`. -/

/-- A vector-store point: Qdrant `PointStruct(id, vector, payload)`. -/
structure StoredPoint where
  pid : String
  vector : List ℚ
  tenantId : String
  chunkId : String
deriving DecidableEq

/-- A search result in the service's standard dictionary format
(`chunk_id`, payload tenant id for provenance, `similarity_score`).
`RetrievedChunk` construction copies these fields. -/
structure SearchDoc where
  chunkId : String
  tenantId : String
  score : ℚ
deriving DecidableEq

/-- One step of Python `dict` assignment `d[k] = v`: override in place if the
key exists, else append. -/
def dictUpdateEntry {α : Type} (d : List (String × α)) (kv : String × α) :
    List (String × α) :=
  if d.any (fun e => e.1 == kv.1) then d.map (fun e => if e.1 == kv.1 then kv else e)
  else d ++ [kv]

/-- Python `base.update(upd)` on string-keyed dicts: entries of `upd`
override or extend `base`. -/
def pyDictUpdate {α : Type} (base upd : List (String × α)) : List (String × α) :=
  upd.foldl dictUpdateEntry base

/-- Python `d.get(k)` / `k in d` on a string-keyed dict. -/
def dictGet? {α : Type} (d : List (String × α)) (k : String) : Option α :=
  (d.find? (fun e => e.1 == k)).map (fun e => e.2)

/-- `combined_results.sort(key=..., reverse=True)`: stable descending sort
by similarity score (ties keep their relative order). -/
def sortByScoreDesc (l : List SearchDoc) : List SearchDoc :=
  l.insertionSort (fun a b => b.score < a.score)

/-- `QdrantProvider.search_vectors`: when the filter dict binds `tenant_id`
the backend keeps only points whose payload `tenant_id` matches (other
filter keys are ignored by the provider code); results are the `limit`
highest-scoring matches, ranked by the backend's similarity `score`. -/
def searchVectors (points : List StoredPoint) (score : StoredPoint → ℚ)
    (limit : Nat) (filters : List (String × String)) : List SearchDoc :=
  let matched : List StoredPoint := match dictGet? filters "tenant_id" with
    | some v => points.filter (fun p => p.tenantId == v)
    | none => points
  ((matched.insertionSort (fun p q => score q < score p)).take limit).map
    (fun p => { chunkId := p.chunkId, tenantId := p.tenantId, score := score p })

/-- The external vector backend's collections, keyed by collection id. -/
def storePoints (store : List (String × List StoredPoint)) (collectionId : String) :
    List StoredPoint :=
  (dictGet? store collectionId).getD []

/-- `vector_collections` row (fields used by the search path). -/
structure VectorCollection where
  tenantId : String
  collectionId : String
deriving DecidableEq

/-- `RAGConfig` knobs consumed by the verified search paths. -/
structure RAGConfig where
  maxChunks : Nat
  similarityThreshold : ℚ
  keywordWeight : ℚ
deriving DecidableEq

/-- `SearchRequest`: the caller-supplied filter dict and configuration (the
query string itself only reaches the embedding backend, which the `score`
abstraction already covers). -/
structure SearchRequest where
  config : RAGConfig
  filters : List (String × String)
deriving DecidableEq

/-- `VectorService._semantic_search`: tenant-isolation filter built as
`filters = {"tenant_id": collection.tenant_id}` then
`filters.update(request.filters)`, over-fetching `max_chunks * 2`. -/
def semanticSearch (store : List (String × List StoredPoint))
    (score : StoredPoint → ℚ) (collection : VectorCollection)
    (request : SearchRequest) : List SearchDoc :=
  let filters := pyDictUpdate [("tenant_id", collection.tenantId)] request.filters
  searchVectors (storePoints store collection.collectionId) score
    (request.config.maxChunks * 2) filters

/-- The `for result in results` loop of `_post_process_results` with its
running count: skip scores below the threshold, append otherwise, and
break once `max_chunks` results are collected. -/
def postProcessGo (results : List SearchDoc) (threshold : ℚ) (maxChunks : Nat)
    (count : Nat) : List SearchDoc :=
  match results with
  | [] => []
  | r :: rest =>
    if r.score < threshold then postProcessGo rest threshold maxChunks count
    else r :: (if maxChunks ≤ count + 1 then []
               else postProcessGo rest threshold maxChunks (count + 1))

/-- `VectorService._post_process_results` (metadata JSON parsing elided;
each kept result is passed through unchanged). -/
def postProcessResults (results : List SearchDoc) (threshold : ℚ)
    (maxChunks : Nat) : List SearchDoc :=
  postProcessGo results threshold maxChunks 0

/-- `VectorService.search_knowledge` on the semantic strategy, after the
tenant's collection has been resolved: `_semantic_search` followed by
`_post_process_results`. -/
def searchKnowledgeSemantic (store : List (String × List StoredPoint))
    (score : StoredPoint → ℚ) (collection : VectorCollection)
    (request : SearchRequest) : List SearchDoc :=
  postProcessResults (semanticSearch store score collection request)
    request.config.similarityThreshold request.config.maxChunks

/-- Python `str.lower()`. -/
def pyLower (s : List Char) : List Char := s.map Char.toLower

/-- Helper for `str.split()`: accumulates the current token (reversed). -/
def pySplitWsAux : List Char → List Char → List (List Char)
  | cur, [] => if cur = [] then [] else [cur.reverse]
  | cur, c :: rest =>
    if c.isWhitespace then
      if cur = [] then pySplitWsAux [] rest else cur.reverse :: pySplitWsAux [] rest
    else pySplitWsAux (c :: cur) rest

/-- Python `str.split()` with no argument: split on whitespace runs,
discarding empty tokens. -/
def pySplitWs (s : List Char) : List (List Char) := pySplitWsAux [] s

/-- SQL `hay LIKE '%needle%'`: the needle occurs contiguously in the hay. -/
def likeContains (hay needle : List Char) : Bool :=
  (List.range (hay.length + 1)).any (fun i => listSlice hay i (i + needle.length) == needle)

/-- The fixed `similarity_score` (0.5) that `_keyword_search` assigns to
every keyword match. -/
def keywordMatchScore : ℚ := 1 / 2

/-- `VectorService._keyword_search`: lowercased query terms, chunks of the
tenant whose lowercased content contains any term (`LIKE '%term%'`),
ordered by `chunk_index` and limited, each scored `keywordMatchScore`.
(For a whitespace-only query the real code interpolates an empty `OR`
list into the SQL and errors; no verified property exercises that case.) -/
def keywordSearch (db : ContentDB) (tenantId : String) (query : List Char)
    (limit : Nat) : List SearchDoc :=
  let terms := pySplitWs (pyLower query)
  let rows := db.chunks.filter (fun c =>
    c.tenantId == tenantId && terms.any (fun t => likeContains (pyLower c.content) t))
  ((rows.insertionSort (fun a b => a.chunkIndex ≤ b.chunkIndex)).take limit).map
    (fun c => { chunkId := c.id, tenantId := c.tenantId, score := keywordMatchScore })

/-- `{r["chunk_id"]: r for r in results}`: dict comprehension, later
duplicates overriding earlier ones. -/
def buildScoreDict (results : List SearchDoc) : List (String × SearchDoc) :=
  results.foldl (fun d r => dictUpdateEntry d (r.chunkId, r)) []

/-- `VectorService._combine_search_results`: for every chunk id in either
result set, `semantic*(1-w) + keyword*w` with a missing component scored 0,
the surviving entry being the semantic result if present else the keyword
one; sorted by combined score descending.  (Python iterates the id set in
unspecified order; the model fixes semantic-then-keyword order, which the
final sort makes irrelevant except between equal scores.) -/
def combineSearchResults (semanticResults keywordResults : List SearchDoc)
    (keywordWeight : ℚ) : List SearchDoc :=
  let semDict := buildScoreDict semanticResults
  let kwDict := buildScoreDict keywordResults
  let allChunkIds := semDict.map (fun e => e.1) ++
    (kwDict.map (fun e => e.1)).filter (fun k => !(semDict.any (fun e => e.1 == k)))
  let combined := allChunkIds.filterMap (fun cid =>
    match dictGet? semDict cid, dictGet? kwDict cid with
    | some s, some k =>
      some { s with score := s.score * (1 - keywordWeight) + k.score * keywordWeight }
    | some s, none =>
      some { s with score := s.score * (1 - keywordWeight) + 0 * keywordWeight }
    | none, some k =>
      some { k with score := 0 * (1 - keywordWeight) + k.score * keywordWeight }
    | none, none => none)
  sortByScoreDesc combined

/-- `QdrantProvider.upsert_vectors` for a single point: Qdrant upsert
overwrites the point carrying the same id, otherwise inserts. -/
def upsertPoint (store : List StoredPoint) (p : StoredPoint) : List StoredPoint :=
  if store.any (fun q => q.pid == p.pid) then
    store.map (fun q => if q.pid == p.pid then p else q)
  else store ++ [p]

/-- `QdrantProvider.upsert_vectors`: the batch applied in order. -/
def upsertVectors (store : List StoredPoint) (points : List StoredPoint) :
    List StoredPoint :=
  points.foldl upsertPoint store

/-- One chunk row paired with its generated embedding, as assembled by
`_process_embedding_job` before the upsert. -/
structure ChunkEmbedInput where
  chunkId : String
  tenantId : String
  embedding : List ℚ
deriving DecidableEq

/-- The `vector_data` list of `_process_embedding_job`: one entry per chunk
with `"id": metadata["chunk_id"]` and the payload carrying `chunk_id` and
`tenant_id`. -/
def prepareVectorData (rows : List ChunkEmbedInput) : List StoredPoint :=
  rows.map (fun r =>
    { pid := r.chunkId, vector := r.embedding, tenantId := r.tenantId,
      chunkId := r.chunkId })

/-- Last point of `ps` carrying pid `k` (the value a sequence of keyed
upserts leaves at key `k`). -/
def lastOcc : List StoredPoint → String → Option StoredPoint
  | [], _ => none
  | p :: rest, k =>
    match lastOcc rest k with
    | some v => some v
    | none => if p.pid == k then some p else none

/-- Override a stored point by the last upsert of `ps` at its pid, if any. -/
def ovr (ps : List StoredPoint) (q : StoredPoint) : StoredPoint :=
  match lastOcc ps q.pid with
  | some v => v
  | none => q

/-- The pids present in a store. -/
def pidsOf (store : List StoredPoint) : List String := store.map (fun p => p.pid)

/-- The rows a batch of upserts appends: one per first occurrence of a pid
not among `seen`, already overridden by the batch's later upserts. -/
def ntail (seen : List String) : List StoredPoint → List StoredPoint
  | [] => []
  | p :: rest =>
    if seen.any (fun x => x == p.pid) then ntail seen rest
    else ovr (p :: rest) p :: ntail (p.pid :: seen) rest

/-! ### Concrete fixtures used by witnesses and counterexamples -/

/-- A tenant with one ingested 5 MB document. -/
def sampleTenant : Tenant :=
  { id := "tenant-1", maxDocuments := 50, maxStorageMb := 1000,
    maxMonthlyQueries := 1000, documentCount := 1, storageUsedMb := 5,
    monthlyQueriesUsed := 0, lastQueryReset := 70 }

/-- The 5 MB source owned by `sampleTenant`. -/
def sampleSource : ContentSource :=
  { id := "src-1", tenantId := "tenant-1", contentType := "document",
    status := .completed, progressPercentage := 100, errorMessage := none,
    fileSizeMb := 5, totalChunks := 0, processedChunks := 0 }

/-- Database holding `sampleTenant` and its source. -/
def sampleDB : ContentDB :=
  { tenants := [sampleTenant], sources := [sampleSource], chunks := [] }

/-- A tenant whose `document_count` equals `max_documents`. -/
def fullTenant : Tenant :=
  { id := "tenant-2", maxDocuments := 1, maxStorageMb := 1000,
    maxMonthlyQueries := 1000, documentCount := 1, storageUsedMb := 0,
    monthlyQueriesUsed := 0, lastQueryReset := 70 }

/-- Database holding `fullTenant` (quota checks run against it at `now = 80`,
within 30 days of the last reset). -/
def fullDB : ContentDB :=
  { tenants := [fullTenant],
    sources := [{ id := "src-2", tenantId := "tenant-2", contentType := "document",
                  status := .completed, progressPercentage := 100, errorMessage := none,
                  fileSizeMb := 0, totalChunks := 0, processedChunks := 0 }],
    chunks := [] }

/-- A tenant at its document limit whose last query reset is stale
(more than 30 days before `now = 31`) and who has used 5 monthly queries. -/
def staleTenant : Tenant :=
  { id := "tenant-3", maxDocuments := 1, maxStorageMb := 1000,
    maxMonthlyQueries := 1000, documentCount := 1, storageUsedMb := 0,
    monthlyQueriesUsed := 5, lastQueryReset := 0 }

/-- Database holding `staleTenant`. -/
def staleDB : ContentDB :=
  { tenants := [staleTenant], sources := [], chunks := [] }

/-- A stored point belonging to tenant B sitting in the collection tenant A
queries (the vector-store interface allows any payload contents). -/
def leakedPoint : StoredPoint :=
  { pid := "p-B", vector := [1], tenantId := "tenant-B", chunkId := "chunk-B" }

/-- A store whose collection `coll-A` holds `leakedPoint`. -/
def leakStore : List (String × List StoredPoint) := [("coll-A", [leakedPoint])]

/-- A point belonging to tenant A in its own collection. -/
def ownPoint : StoredPoint :=
  { pid := "p-A", vector := [1], tenantId := "tenant-A", chunkId := "chunk-A" }

/-- A store whose collection `coll-A` holds only tenant A's point. -/
def ownStore : List (String × List StoredPoint) := [("coll-A", [ownPoint])]

/-- Tenant A's resolved vector collection. -/
def leakCollection : VectorCollection :=
  { tenantId := "tenant-A", collectionId := "coll-A" }

/-- A search request whose caller-supplied filter map overrides `tenant_id`. -/
def leakRequest : SearchRequest :=
  { config := { maxChunks := 5, similarityThreshold := 0, keywordWeight := 0 },
    filters := [("tenant_id", "tenant-B")] }

/-- A search request whose caller-supplied filter map leaves `tenant_id` alone. -/
def cleanRequest : SearchRequest :=
  { config := { maxChunks := 5, similarityThreshold := 0, keywordWeight := 0 },
    filters := [("source_type", "document")] }

/-- A backend scoring assigning similarity 1 to every stored point. -/
def constScore : StoredPoint → ℚ := fun _ => 1

/-- A semantic result set holding one chunk with similarity 1. -/
def semFixture : List SearchDoc := [⟨"c1", "tenant-A", 1⟩]

/-- The entry `_combine_search_results` produces from `semFixture`, an empty
keyword result set and keyword weight 0. -/
def combinedFixture : SearchDoc :=
  ⟨"c1", "tenant-A", (1 : ℚ) * (1 - 0) + 0 * 0⟩

/-- A pending source whose extraction will fail. -/
def pipeSource1 : ContentSource :=
  { id := "s1", tenantId := "tenant-1", contentType := "document",
    status := .pending, progressPercentage := 0, errorMessage := none,
    fileSizeMb := 0, totalChunks := 0, processedChunks := 0 }

/-- A pending source enqueued after `pipeSource1` whose processing succeeds. -/
def pipeSource2 : ContentSource :=
  { id := "s2", tenantId := "tenant-1", contentType := "document",
    status := .pending, progressPercentage := 0, errorMessage := none,
    fileSizeMb := 0, totalChunks := 0, processedChunks := 0 }

/-- Database holding the two queued sources. -/
def pipeDB : ContentDB :=
  { tenants := [], sources := [pipeSource1, pipeSource2], chunks := [] }

/-- An extractor raising `ValueError("boom")` on `s1` and succeeding on
everything else. -/
def pipeExt : ContentSource → Except String ContentData :=
  fun s => if s.id == "s1" then .error "boom" else .ok ⟨"hello world".data⟩

/-- A chunker that returns the extracted text as a single chunk. -/
def pipeChk : ContentSource → ContentData → Except String (List (List Char)) :=
  fun _ d => .ok [d.text]

/-- An extractor succeeding on every source (used to exercise the
chunker-exception branch of the failure-isolation property). -/
def pipeExtOk : ContentSource → Except String ContentData :=
  fun _ => .ok ⟨"hello world".data⟩

/-- A chunker raising `ValueError("split fail")` on `s1` and returning the
extracted text as a single chunk on everything else. -/
def pipeChkFail : ContentSource → ContentData → Except String (List (List Char)) :=
  fun s d => if s.id == "s1" then .error "split fail" else .ok [d.text]

/-! ## Theorems -/

/-! ### Chunker sanity checks -/

example : chunkContent "ab".data 1000 200 = some ["ab".data] := by decide
example : chunkContent [] 1000 200 = some [] := by decide
example : smartChunkText "abcd".data 2 0 = some ["ab".data, "cd".data] := by decide
example : smartChunkText "abc. defgh".data 5 0 =
    some ["abc. ".data, "defgh".data] := by decide
example : smartChunkText "ab. cd".data 4 1 =
    some ["ab. ".data, " cd".data] := by decide

/-! ### Chunker lemmas -/

theorem pyRfindAux_bounds (text pat : List Char) (a b : Nat) :
    ∀ n i, pyRfindAux text pat a b n = some i → a ≤ i ∧ i + pat.length ≤ b := by
  intro n
  induction n with
  | zero => intro i h; simp [pyRfindAux] at h
  | succ n ih =>
    intro i h
    by_cases hc : (a ≤ n && n + pat.length ≤ b && occursAt text pat n) = true
    · rw [pyRfindAux, if_pos hc] at h
      simp only [Bool.and_eq_true, decide_eq_true_eq] at hc
      cases h
      exact ⟨hc.1.1, hc.1.2⟩
    · rw [pyRfindAux, if_neg hc] at h
      exact ih i h

theorem pyRfind_bounds (text pat : List Char) (a b i : Nat)
    (h : pyRfind text pat a b = some i) : a ≤ i ∧ i + pat.length ≤ b :=
  pyRfindAux_bounds text pat a b b i h

theorem bestBreakGo_cases (text : List Char) (s e cs : Nat) :
    ∀ bps : List (List Char), (∀ bp ∈ bps, 1 ≤ bp.length) →
      bestBreakGo text s e cs bps = e ∨
      (s + cs / 2 + 2 ≤ bestBreakGo text s e cs bps ∧ bestBreakGo text s e cs bps ≤ e) := by
  intro bps
  induction bps with
  | nil => intro _; left; rfl
  | cons bp rest ih =>
    intro hlen
    have htail : ∀ q ∈ rest, 1 ≤ q.length := fun q hq => hlen q (List.mem_cons_of_mem _ hq)
    cases hfind : pyRfind text bp s e with
    | none =>
      simpa only [bestBreakGo, hfind] using ih htail
    | some i =>
      by_cases hcond : s + cs / 2 < i
      · have hb := pyRfind_bounds text bp s e i hfind
        have h1 : 1 ≤ bp.length := hlen bp (List.mem_cons_self _ _)
        right
        simp only [bestBreakGo, hfind, if_pos hcond]
        omega
      · simpa only [bestBreakGo, hfind, if_neg hcond] using ih htail

theorem breakPoints_nonempty : ∀ bp ∈ breakPoints, 1 ≤ bp.length := by decide

theorem bestBreak_cases (text : List Char) (s cs : Nat) :
    bestBreak text s (s + cs) cs = s + cs ∨
    (s + cs / 2 + 2 ≤ bestBreak text s (s + cs) cs ∧
      bestBreak text s (s + cs) cs ≤ s + cs) :=
  bestBreakGo_cases text s (s + cs) cs breakPoints breakPoints_nonempty

theorem bestBreak_gt (text : List Char) (s cs : Nat) (hcs : 1 ≤ cs) :
    s < bestBreak text s (s + cs) cs := by
  rcases bestBreak_cases text s cs with h | h <;> omega

theorem nextStart_le_bestBreak (text : List Char) (cs os start : Nat) :
    nextStart text cs os start ≤ bestBreak text start (start + cs) cs := by
  rw [nextStart]
  split <;> omega

theorem nextStart_progress (text : List Char) (cs os start : Nat)
    (hos1 : os ≤ cs / 2 + 1) (hos2 : os < cs) :
    start + 1 ≤ nextStart text cs os start := by
  rw [nextStart]
  rcases bestBreak_cases text start cs with h | h <;> split <;> omega

theorem listSlice_ne_nil (text : List Char) (a b : Nat) (hab : a < b)
    (ha : a < text.length) : listSlice text a b ≠ [] := by
  have hpos : 0 < (listSlice text a b).length := by
    rw [listSlice, List.length_take, List.length_drop]; omega
  exact List.length_pos.mp hpos

theorem listSlice_full (text : List Char) : listSlice text 0 text.length = text := by
  simp [listSlice]

theorem smartChunkAux_total (text : List Char) (cs os : Nat)
    (hos1 : os ≤ cs / 2 + 1) (hos2 : os < cs) :
    ∀ fuel start, text.length - start < fuel →
      ∃ out, smartChunkAux text cs os fuel start = some out := by
  intro fuel
  induction fuel with
  | zero => intro start h; omega
  | succ n ih =>
    intro start h
    by_cases h1 : start < text.length
    · by_cases h2 : text.length ≤ start + cs
      · exact ⟨_, by simp only [smartChunkAux]; rw [if_pos h1, if_pos h2]⟩
      · have hprog := nextStart_progress text cs os start hos1 hos2
        obtain ⟨out, hout⟩ := ih (nextStart text cs os start) (by omega)
        exact ⟨_, by simp only [smartChunkAux]; rw [if_pos h1, if_neg h2, hout]⟩
    · exact ⟨[], by simp only [smartChunkAux]; rw [if_neg h1]⟩

theorem smartChunkAux_covers (text : List Char) (cs os : Nat) :
    ∀ fuel start out, smartChunkAux text cs os fuel start = some out →
      ∀ j, start ≤ j → j < text.length →
        ∃ a b, a ≤ j ∧ j < b ∧ listSlice text a b ∈ out := by
  intro fuel
  induction fuel with
  | zero => intro start out h; simp [smartChunkAux] at h
  | succ n ih =>
    intro start out hout j hsj hj
    simp only [smartChunkAux] at hout
    by_cases h1 : start < text.length
    · rw [if_pos h1] at hout
      by_cases h2 : text.length ≤ start + cs
      · rw [if_pos h2] at hout
        injection hout with h
        subst h
        exact ⟨start, text.length, hsj, hj, List.mem_singleton_self _⟩
      · rw [if_neg h2] at hout
        cases hrec : smartChunkAux text cs os n (nextStart text cs os start) with
        | none => rw [hrec] at hout; exact absurd hout (by simp)
        | some rest =>
          rw [hrec] at hout
          injection hout with h
          subst h
          by_cases hjb : j < bestBreak text start (start + cs) cs
          · exact ⟨start, _, hsj, hjb, List.mem_cons_self _ _⟩
          · have hle := nextStart_le_bestBreak text cs os start
            obtain ⟨a, b, ha, hb, hmem⟩ :=
              ih (nextStart text cs os start) rest hrec j (by omega) hj
            exact ⟨a, b, ha, hb, List.mem_cons_of_mem _ hmem⟩
    · rw [if_neg h1] at hout
      omega

theorem smartChunkAux_nonempty (text : List Char) (cs os : Nat) (hcs : 1 ≤ cs) :
    ∀ fuel start out, smartChunkAux text cs os fuel start = some out →
      ∀ c ∈ out, c ≠ [] := by
  intro fuel
  induction fuel with
  | zero => intro start out h; simp [smartChunkAux] at h
  | succ n ih =>
    intro start out hout c hc
    simp only [smartChunkAux] at hout
    by_cases h1 : start < text.length
    · rw [if_pos h1] at hout
      by_cases h2 : text.length ≤ start + cs
      · rw [if_pos h2] at hout
        injection hout with h
        subst h
        rcases List.mem_singleton.mp hc with rfl
        exact listSlice_ne_nil text start text.length h1 h1
      · rw [if_neg h2] at hout
        cases hrec : smartChunkAux text cs os n (nextStart text cs os start) with
        | none => rw [hrec] at hout; exact absurd hout (by simp)
        | some rest =>
          rw [hrec] at hout
          injection hout with h
          subst h
          rcases List.mem_cons.mp hc with rfl | hmem
          · exact listSlice_ne_nil text start _ (bestBreak_gt text start cs hcs) h1
          · exact ih (nextStart text cs os start) rest hrec c hmem
    · rw [if_neg h1] at hout
      injection hout with h
      subst h
      simp at hc

/-- C4 (amended): for every text and every configuration in which each window
advances (`overlap_size ≤ chunk_size / 2 + 1` and `overlap_size < chunk_size`,
which covers the defaults 1000/200; an accepted break lies strictly past
`start + chunk_size / 2` and adds the break point's length `≥ 1`, and an
unbroken window cuts at `start + chunk_size`), the chunker terminates and
every character position of the input is covered by the character range of at
least one produced chunk (each chunk being the corresponding slice of the
input), and no produced chunk is empty.  The unamended claim, quantified over
all configurations, fails: see `chunkContent_divergence_counterexample`. -/
theorem chunkContent_covers (text : List Char) (cs os : Nat)
    (hos1 : os ≤ cs / 2 + 1) (hos2 : os < cs) :
    ∃ out, chunkContent text cs os = some out ∧
      (∀ j, j < text.length → ∃ a b, a ≤ j ∧ j < b ∧ listSlice text a b ∈ out) ∧
      (∀ c ∈ out, c ≠ []) := by
  by_cases hnil : text = []
  · subst hnil
    refine ⟨[], by simp [chunkContent], ?_, ?_⟩
    · intro j hj; simp at hj
    · intro c hc; simp at hc
  · rw [chunkContent, if_neg hnil]
    by_cases hlen : text.length ≤ cs
    · rw [smartChunkText, if_pos hlen]
      refine ⟨[text], rfl, ?_, ?_⟩
      · intro j hj
        refine ⟨0, text.length, Nat.zero_le _, hj, ?_⟩
        rw [listSlice_full]
        exact List.mem_singleton_self _
      · intro c hc
        rcases List.mem_singleton.mp hc with rfl
        exact hnil
    · rw [smartChunkText, if_neg hlen]
      have hcs : 1 ≤ cs := by omega
      obtain ⟨out, hout⟩ :=
        smartChunkAux_total text cs os hos1 hos2 (text.length + 1) 0 (by omega)
      refine ⟨out, hout, ?_, ?_⟩
      · intro j hj
        exact smartChunkAux_covers text cs os (text.length + 1) 0 out hout j
          (Nat.zero_le _) hj
      · exact smartChunkAux_nonempty text cs os hcs (text.length + 1) 0 out hout

theorem chunkContent_covers_witness :
    (1 ≤ 3 / 2 + 1 ∧ 1 < 3) ∧
    ∃ out, chunkContent "hello".data 3 1 = some out ∧
      (∀ j, j < "hello".data.length →
        ∃ a b, a ≤ j ∧ j < b ∧ listSlice "hello".data a b ∈ out) ∧
      (∀ c ∈ out, c ≠ []) :=
  ⟨by decide, chunkContent_covers "hello".data 3 1 (by decide) (by decide)⟩

theorem smartChunkAux_badInput_stuck :
    ∀ fuel, smartChunkAux badChunkInput 10 10 fuel 10 = none := by
  intro fuel
  induction fuel with
  | zero => rfl
  | succ n ih =>
    have hns : nextStart badChunkInput 10 10 10 = 10 := by decide
    simp only [smartChunkAux, hns, ih]
    decide

theorem smartChunkAux_badInput_stuck_from_zero :
    ∀ fuel, smartChunkAux badChunkInput 10 10 fuel 0 = none := by
  intro fuel
  cases fuel with
  | zero => rfl
  | succ n =>
    have hns : nextStart badChunkInput 10 10 0 = 10 := by decide
    simp only [smartChunkAux, hns, smartChunkAux_badInput_stuck n]
    decide

/-- C4 counterexample: with `chunk_size = 10` and `overlap_size = 10` the
window loop of `_smart_chunk_text` reaches start position 10 and then
re-enters it forever (`smartChunkAux_badInput_stuck`), so on this
25-character input the chunker produces no chunk list at all — in
particular no chunk list covering every character. -/
theorem chunkContent_divergence_counterexample :
    chunkContent badChunkInput 10 10 = none ∧ badChunkInput.length = 25 := by decide

/-- C5 (amended): for every non-empty text of length at most `chunk_size`
(including length exactly `chunk_size`), `chunk_content` returns exactly one
chunk whose content is the whole input.  For the empty string the unamended
claim fails: the guard `if not text: return []` yields zero chunks, see
`chunkContent_empty_counterexample`. -/
theorem chunkContent_singleFits (text : List Char) (cs os : Nat)
    (hnil : text ≠ []) (hlen : text.length ≤ cs) :
    chunkContent text cs os = some [text] := by
  rw [chunkContent, if_neg hnil, smartChunkText, if_pos hlen]

theorem chunkContent_singleFits_witness :
    ("ab".data ≠ [] ∧ "ab".data.length ≤ 2) ∧
    chunkContent "ab".data 2 0 = some ["ab".data] :=
  ⟨by decide, chunkContent_singleFits "ab".data 2 0 (by decide) (by decide)⟩

/-- C5 counterexample: on the empty string (with the default configuration)
`chunk_content` returns an empty chunk list, not exactly one chunk whose
content equals the input. -/
theorem chunkContent_empty_counterexample :
    chunkContent [] 1000 200 = some [] ∧
    chunkContent [] 1000 200 ≠ some [([] : List Char)] := by decide

/-! ### Quota ledger: lemmas -/

theorem find?_map_comm {α : Type} (g : α → α) (p : α → Bool)
    (hp : ∀ a, p (g a) = p a) :
    ∀ l : List α, (l.map g).find? p = (l.find? p).map g := by
  intro l
  induction l with
  | nil => rfl
  | cons a l ih =>
    by_cases ha : p a = true
    · rw [List.map_cons, List.find?_cons_of_pos _ (by rw [hp]; exact ha),
        List.find?_cons_of_pos _ ha, Option.map_some']
    · rw [List.map_cons, List.find?_cons_of_neg _ (by rw [hp]; simpa using ha),
        List.find?_cons_of_neg _ (by simpa using ha), ih]

theorem monthlyReset_id (now : Int) (t : Tenant) : (monthlyReset now t).id = t.id := by
  rw [monthlyReset]; split <;> rfl

theorem monthlyReset_documentCount (now : Int) (t : Tenant) :
    (monthlyReset now t).documentCount = t.documentCount := by
  rw [monthlyReset]; split <;> rfl

theorem monthlyReset_maxDocuments (now : Int) (t : Tenant) :
    (monthlyReset now t).maxDocuments = t.maxDocuments := by
  rw [monthlyReset]; split <;> rfl

theorem monthlyReset_storageUsedMb (now : Int) (t : Tenant) :
    (monthlyReset now t).storageUsedMb = t.storageUsedMb := by
  rw [monthlyReset]; split <;> rfl

theorem findTenant_updateTenant (db : ContentDB) (tid : String) (f : Tenant → Tenant)
    (hf : ∀ t, (f t).id = t.id) (t : Tenant) (ht : findTenant db tid = some t) :
    findTenant (updateTenant db tid f) tid = some (f t) := by
  have hp : ∀ a : Tenant, ((if a.id == tid then f a else a).id == tid) = (a.id == tid) := by
    intro a
    by_cases h : (a.id == tid) = true
    · simp [h, hf]
    · simp only [Bool.not_eq_true] at h
      simp [h]
  have hcomm := find?_map_comm (fun a : Tenant => if a.id == tid then f a else a)
      (fun a => a.id == tid) hp db.tenants
  unfold findTenant at ht
  have hpt := List.find?_some ht
  show List.find? (fun a => a.id == tid)
      (List.map (fun a => if a.id == tid then f a else a) db.tenants) = some (f t)
  rw [hcomm, ht, Option.map_some', if_pos hpt]

theorem findTenant_updateTenantUsage (db : ContentDB) (tid : String) (d s : Int)
    (t : Tenant) (ht : findTenant db tid = some t) :
    findTenant (updateTenantUsage db tid d s) tid =
      some { t with documentCount := t.documentCount + d,
                    storageUsedMb := t.storageUsedMb + s } := by
  unfold updateTenantUsage
  exact findTenant_updateTenant db tid
    (fun a => { a with documentCount := a.documentCount + d, storageUsedMb := a.storageUsedMb + s })
    (fun a => rfl) t ht

theorem checkTenantQuotas_docLimit (db : ContentDB) (now : Int) (tid : String)
    (est : Int) (t : Tenant) (ht : findTenant db tid = some t)
    (hfull : t.maxDocuments ≤ t.documentCount) :
    checkTenantQuotas db now tid est =
      (updateTenant db tid (monthlyReset now), .error .documentLimitReached) := by
  simp only [checkTenantQuotas, ht]
  rw [if_pos (by rw [monthlyReset_maxDocuments, monthlyReset_documentCount]; exact hfull)]

/-! ### C10: `get_tenant_usage` rejects tenants at their document limit -/

/-- C10: for every tenant whose `document_count` is at least `max_documents`,
the read-only `get_tenant_usage` raises the quota-exceeded `HTTPException`
(status 403) instead of returning the usage snapshot, because it delegates to
`check_tenant_quotas(tenant_id, 0)`. -/
theorem getTenantUsage_quota_rejection (db : ContentDB) (now : Int) (tid : String)
    (t : Tenant) (ht : findTenant db tid = some t)
    (hfull : t.maxDocuments ≤ t.documentCount) :
    (getTenantUsage db now tid).2 = .error .documentLimitReached ∧
    SvcError.documentLimitReached.statusCode = 403 :=
  ⟨by rw [getTenantUsage, checkTenantQuotas_docLimit db now tid 0 t ht hfull], rfl⟩

theorem getTenantUsage_quota_rejection_witness :
    (findTenant fullDB "tenant-2" = some fullTenant ∧
      fullTenant.maxDocuments ≤ fullTenant.documentCount) ∧
    (getTenantUsage fullDB 80 "tenant-2").2 = .error .documentLimitReached ∧
    SvcError.documentLimitReached.statusCode = 403 :=
  ⟨by decide, getTenantUsage_quota_rejection fullDB 80 "tenant-2" fullTenant
    (by decide) (by decide)⟩

/-! ### C3: quota rejection happens before the source row is created -/

/-- C3 (amended): for every tenant whose `document_count` equals
`max_documents`, `create_content_source` fails with the quota-exceeded
`HTTPException` (403) before any `ContentSource` row or chunk is created,
and the tenant's document and storage counters are unchanged.  The unamended
claim ("the tenant's usage counters are unchanged") fails for the monthly
query counter, which `check_tenant_quotas` may reset to zero (and commit)
before rejecting the request: see `createContentSource_reset_counterexample`. -/
theorem createContentSource_quota_rejection (db : ContentDB) (now : Int)
    (tid nsid ctype : String) (upsize : Option Nat) (t : Tenant)
    (ht : findTenant db tid = some t) (hfull : t.documentCount = t.maxDocuments) :
    (createContentSource db now tid nsid ctype upsize).2 = .error .documentLimitReached ∧
    (createContentSource db now tid nsid ctype upsize).1.sources = db.sources ∧
    (createContentSource db now tid nsid ctype upsize).1.chunks = db.chunks ∧
    ∃ t', findTenant (createContentSource db now tid nsid ctype upsize).1 tid = some t' ∧
      t'.documentCount = t.documentCount ∧ t'.storageUsedMb = t.storageUsedMb := by
  have hc := checkTenantQuotas_docLimit db now tid ((upsize.getD 0 : Nat) : Int) t ht
    (le_of_eq hfull.symm)
  have hres : createContentSource db now tid nsid ctype upsize =
      (updateTenant db tid (monthlyReset now), .error .documentLimitReached) := by
    simp only [createContentSource, hc]
  rw [hres]
  exact ⟨rfl, rfl, rfl, monthlyReset now t,
    findTenant_updateTenant db tid (monthlyReset now) (monthlyReset_id now) t ht,
    monthlyReset_documentCount now t, monthlyReset_storageUsedMb now t⟩

theorem createContentSource_quota_rejection_witness :
    (findTenant fullDB "tenant-2" = some fullTenant ∧
      fullTenant.documentCount = fullTenant.maxDocuments) ∧
    ((createContentSource fullDB 80 "tenant-2" "src-new" "document" none).2 =
        .error .documentLimitReached ∧
      (createContentSource fullDB 80 "tenant-2" "src-new" "document" none).1.sources =
        fullDB.sources ∧
      (createContentSource fullDB 80 "tenant-2" "src-new" "document" none).1.chunks =
        fullDB.chunks ∧
      ∃ t', findTenant
          (createContentSource fullDB 80 "tenant-2" "src-new" "document" none).1
          "tenant-2" = some t' ∧
        t'.documentCount = fullTenant.documentCount ∧
        t'.storageUsedMb = fullTenant.storageUsedMb) :=
  ⟨by decide, createContentSource_quota_rejection fullDB 80 "tenant-2" "src-new"
    "document" none fullTenant (by decide) (by decide)⟩

/-- C3 counterexample: `staleTenant` is at its document limit with a stale
monthly reset and 5 used monthly queries.  The rejected `create_content_source`
call still zeroes (and commits) `monthly_queries_used` — a usage counter —
so "the tenant's usage counters are unchanged" is false as stated. -/
theorem createContentSource_reset_counterexample :
    (createContentSource staleDB 31 "tenant-3" "src-new" "document" none).2 =
      .error .documentLimitReached ∧
    (findTenant staleDB "tenant-3").map (fun t => t.monthlyQueriesUsed) = some 5 ∧
    (findTenant (createContentSource staleDB 31 "tenant-3" "src-new" "document" none).1
        "tenant-3").map (fun t => t.monthlyQueriesUsed) = some 0 := by decide

/-! ### C2: deletion decrements usage symmetrically -/

/-- C2: for every tenant satisfying the service's accounting invariant
(usage counters equal the count and total recorded size of its sources —
the invariant ingestion establishes) and every owned source, deletion
succeeds, decrements the tenant's document count by exactly 1 and its
storage usage by exactly the source's recorded `file_size_mb`, and neither
counter goes below zero. -/
theorem deleteContentSource_usage (db : ContentDB) (tid sid : String) (t : Tenant)
    (ht : findTenant db tid = some t) (hacc : tenantAccounting db t)
    (src : ContentSource) (hsrc : findOwnedSource db tid sid = some src) :
    (deleteContentSource db tid sid).2 = .ok () ∧
    ∃ t', findTenant (deleteContentSource db tid sid).1 tid = some t' ∧
      t'.documentCount = t.documentCount - 1 ∧
      t'.storageUsedMb = t.storageUsedMb - (src.fileSizeMb : Int) ∧
      0 ≤ t'.documentCount ∧ 0 ≤ t'.storageUsedMb := by
  obtain ⟨hacc1, hacc2⟩ := hacc
  have hsrc' := hsrc
  unfold findOwnedSource at hsrc'
  have hmem : src ∈ db.sources := List.mem_of_find?_eq_some hsrc'
  have hpred := List.find?_some hsrc'
  simp only [Bool.and_eq_true, beq_iff_eq] at hpred
  obtain ⟨hid, htenant⟩ := hpred
  have htid : t.id = tid := by
    have h2 := ht
    unfold findTenant at h2
    simpa using List.find?_some h2
  have howned : src ∈ ownedSources db t.id := by
    unfold ownedSources
    refine List.mem_filter.mpr ⟨hmem, ?_⟩
    simp [htenant, htid]
  have hlen : 0 < (ownedSources db t.id).length := List.length_pos_of_mem howned
  have hsum : (src.fileSizeMb : Int) ≤
      ((ownedSources db t.id).map (fun s => (s.fileSizeMb : Int))).sum := by
    refine List.single_le_sum ?_ _ (List.mem_map_of_mem _ howned)
    intro x hx
    obtain ⟨s, _, rfl⟩ := List.mem_map.mp hx
    exact Int.natCast_nonneg _
  have hres : deleteContentSource db tid sid =
      (updateTenantUsage
        { db with sources := db.sources.filter (fun s => !(s.id == sid)),
                  chunks := db.chunks.filter (fun c => !(c.sourceId == sid)) }
        tid (-1) (-(src.fileSizeMb : Int)), .ok ()) := by
    simp only [deleteContentSource, hsrc]
  rw [hres]
  refine ⟨rfl, _,
    findTenant_updateTenantUsage _ tid (-1) (-(src.fileSizeMb : Int)) t ht,
    ?_, ?_, ?_, ?_⟩
  · show t.documentCount + (-1) = t.documentCount - 1
    omega
  · show t.storageUsedMb + (-(src.fileSizeMb : Int)) =
      t.storageUsedMb - (src.fileSizeMb : Int)
    omega
  · show 0 ≤ t.documentCount + (-1)
    omega
  · show 0 ≤ t.storageUsedMb + (-(src.fileSizeMb : Int))
    omega

theorem deleteContentSource_usage_witness :
    (findTenant sampleDB "tenant-1" = some sampleTenant ∧
      tenantAccounting sampleDB sampleTenant ∧
      findOwnedSource sampleDB "tenant-1" "src-1" = some sampleSource) ∧
    ((deleteContentSource sampleDB "tenant-1" "src-1").2 = .ok () ∧
      ∃ t', findTenant (deleteContentSource sampleDB "tenant-1" "src-1").1
          "tenant-1" = some t' ∧
        t'.documentCount = sampleTenant.documentCount - 1 ∧
        t'.storageUsedMb = sampleTenant.storageUsedMb - (sampleSource.fileSizeMb : Int) ∧
        0 ≤ t'.documentCount ∧ 0 ≤ t'.storageUsedMb) :=
  ⟨⟨by decide, by decide, by decide⟩,
    deleteContentSource_usage sampleDB "tenant-1" "src-1" sampleTenant (by decide)
      (by decide) sampleSource (by decide)⟩

/-! ### C8: per-source failure handling in the ingestion pipeline -/

theorem find?_map_updateIf {α : Type} (l : List α) (idf : α → String) (sid k : String)
    (u : α → α) (hu : ∀ a, idf (u a) = idf a) (s : α)
    (hs : l.find? (fun a => idf a == k) = some s) :
    (l.map (fun a => if idf a == sid then u a else a)).find? (fun a => idf a == k) =
      some (if idf s == sid then u s else s) := by
  have hp : ∀ a, (idf (if idf a == sid then u a else a) == k) = (idf a == k) := by
    intro a
    by_cases h : (idf a == sid) = true
    · simp [h, hu]
    · simp only [Bool.not_eq_true] at h
      simp [h]
  rw [find?_map_comm _ _ hp l, hs, Option.map_some']

theorem findSourceById_id (db : ContentDB) (k : String) (s : ContentSource)
    (hs : findSourceById db k = some s) : s.id = k := by
  unfold findSourceById at hs
  simpa using List.find?_some hs

theorem findSourceById_setSourceStatus (db : ContentDB) (sid k : String)
    (st : ProcStatus) (pr : Nat) (em : Option String) (s : ContentSource)
    (hs : findSourceById db k = some s) :
    findSourceById (setSourceStatus db sid st pr em) k =
      some (if s.id == sid then
        { s with status := st, progressPercentage := pr, errorMessage := em } else s) := by
  unfold findSourceById at hs ⊢
  exact find?_map_updateIf db.sources (fun a => a.id) sid k
    (fun a => { a with status := st, progressPercentage := pr, errorMessage := em })
    (fun a => rfl) s hs

theorem findSourceById_setSourceStatus_self (db : ContentDB) (sid : String)
    (st : ProcStatus) (pr : Nat) (em : Option String) (s : ContentSource)
    (hs : findSourceById db sid = some s) :
    findSourceById (setSourceStatus db sid st pr em) sid =
      some { s with status := st, progressPercentage := pr, errorMessage := em } := by
  have h := findSourceById_setSourceStatus db sid sid st pr em s hs
  rwa [if_pos (by rw [findSourceById_id db sid s hs]; exact beq_self_eq_true _)] at h

theorem findSourceById_setSourceStatus_other (db : ContentDB) (sid k : String)
    (st : ProcStatus) (pr : Nat) (em : Option String) (s : ContentSource)
    (hs : findSourceById db k = some s) (hne : k ≠ sid) :
    findSourceById (setSourceStatus db sid st pr em) k = some s := by
  have h := findSourceById_setSourceStatus db sid k st pr em s hs
  rwa [if_neg (by rw [findSourceById_id db k s hs]; simp [hne])] at h

theorem findSourceById_saveContentChunks (db : ContentDB) (src : ContentSource)
    (cs : List (List Char)) (k : String) (s : ContentSource)
    (hs : findSourceById db k = some s) :
    findSourceById (saveContentChunks db src cs) k =
      some (if s.id == src.id then
        { s with totalChunks := cs.length, processedChunks := cs.length } else s) := by
  unfold findSourceById at hs ⊢
  exact find?_map_updateIf db.sources (fun a => a.id) src.id k
    (fun a => { a with totalChunks := cs.length, processedChunks := cs.length })
    (fun a => rfl) s hs

theorem findSourceById_saveContentChunks_self (db : ContentDB) (src : ContentSource)
    (cs : List (List Char)) (k : String) (s : ContentSource)
    (hs : findSourceById db k = some s) (hk : src.id = k) :
    findSourceById (saveContentChunks db src cs) k =
      some { s with totalChunks := cs.length, processedChunks := cs.length } := by
  have h := findSourceById_saveContentChunks db src cs k s hs
  rwa [if_pos (by rw [findSourceById_id db k s hs, hk]; exact beq_self_eq_true _)] at h

theorem findSourceById_saveContentChunks_other (db : ContentDB) (src : ContentSource)
    (cs : List (List Char)) (k : String) (s : ContentSource)
    (hs : findSourceById db k = some s) (hk : k ≠ src.id) :
    findSourceById (saveContentChunks db src cs) k = some s := by
  have h := findSourceById_saveContentChunks db src cs k s hs
  rwa [if_neg (by rw [findSourceById_id db k s hs]; simp [hk])] at h

theorem processContentSource_fail
    (ext : ContentSource → Except String ContentData)
    (chk : ContentSource → ContentData → Except String (List (List Char)))
    (db : ContentDB) (sid : String) (src : ContentSource) (m : String)
    (hfind : findSourceById db sid = some src) (hext : ext src = .error m) :
    processContentSource ext chk db sid =
      setSourceStatus (setSourceStatus db sid .processing 0 none) sid .failed 0 (some m) := by
  simp only [processContentSource, hfind, hext]

theorem processContentSource_ok
    (ext : ContentSource → Except String ContentData)
    (chk : ContentSource → ContentData → Except String (List (List Char)))
    (db : ContentDB) (sid : String) (src : ContentSource) (data : ContentData)
    (cs : List (List Char))
    (hfind : findSourceById db sid = some src) (hext : ext src = .ok data)
    (hchk : chk src data = .ok cs) :
    processContentSource ext chk db sid =
      setSourceStatus (saveContentChunks
        (setSourceStatus (setSourceStatus (setSourceStatus db sid .processing 0 none)
          sid .chunking 25 none) sid .embedding 50 none) src cs)
        sid .completed 100 none := by
  simp only [processContentSource, hfind, hext, hchk]

theorem processContentSource_chunkFail
    (ext : ContentSource → Except String ContentData)
    (chk : ContentSource → ContentData → Except String (List (List Char)))
    (db : ContentDB) (sid : String) (src : ContentSource) (data : ContentData) (m : String)
    (hfind : findSourceById db sid = some src) (hext : ext src = .ok data)
    (hchk : chk src data = .error m) :
    processContentSource ext chk db sid =
      setSourceStatus (setSourceStatus (setSourceStatus db sid .processing 0 none)
        sid .chunking 25 none) sid .failed 0 (some m) := by
  simp only [processContentSource, hfind, hext, hchk]

/-- C8: when extraction (or chunking) of a source raises, the pipeline records
the exception's message as that source's `error_message` and sets its status
to `failed`; the consumer loop, a total fold over the queue, does not crash,
and a source enqueued after the failing one is still processed to
`completed`. -/
theorem processQueue_failure_isolated
    (ext : ContentSource → Except String ContentData)
    (chk : ContentSource → ContentData → Except String (List (List Char)))
    (db : ContentDB) (s1 s2 : ContentSource) (m : String)
    (contentData : ContentData) (chunks : List (List Char))
    (hne : s1.id ≠ s2.id)
    (h1 : findSourceById db s1.id = some s1)
    (h2 : findSourceById db s2.id = some s2)
    (hfail : ext s1 = .error m ∨
      ∃ d, ext s1 = .ok d ∧ chk s1 d = .error m)
    (hext2 : ext s2 = .ok contentData)
    (hchk2 : chk s2 contentData = .ok chunks) :
    ∃ s1' s2',
      findSourceById (processQueue ext chk db [s1.id, s2.id]) s1.id = some s1' ∧
      s1'.status = .failed ∧ s1'.errorMessage = some m ∧
      findSourceById (processQueue ext chk db [s1.id, s2.id]) s2.id = some s2' ∧
      s2'.status = .completed := by
  have hne21 : s2.id ≠ s1.id := fun h => hne h.symm
  -- the database after the failing source has been processed, for either a
  -- raising extractor or a raising chunker
  have hf : findSourceById (processContentSource ext chk db s1.id) s1.id =
      some { s1 with status := .failed, progressPercentage := 0,
                     errorMessage := some m } ∧
      findSourceById (processContentSource ext chk db s1.id) s2.id = some s2 := by
    rcases hfail with hext1 | ⟨d, hext1, hchk1⟩
    · have e1 := processContentSource_fail ext chk db s1.id s1 m h1 hext1
      constructor
      · rw [e1]
        have q1 := findSourceById_setSourceStatus_self db s1.id .processing 0 none s1 h1
        have q2 := findSourceById_setSourceStatus_self _ s1.id .failed 0 (some m) _ q1
        exact q2
      · rw [e1]
        exact findSourceById_setSourceStatus_other _ s1.id s2.id .failed 0 (some m) s2
          (findSourceById_setSourceStatus_other db s1.id s2.id .processing 0 none s2 h2
            hne21)
          hne21
    · have e1 := processContentSource_chunkFail ext chk db s1.id s1 d m h1 hext1 hchk1
      constructor
      · rw [e1]
        have q1 := findSourceById_setSourceStatus_self db s1.id .processing 0 none s1 h1
        have q2 := findSourceById_setSourceStatus_self _ s1.id .chunking 25 none _ q1
        have q3 := findSourceById_setSourceStatus_self _ s1.id .failed 0 (some m) _ q2
        exact q3
      · rw [e1]
        have q1 := findSourceById_setSourceStatus_other db s1.id s2.id .processing 0 none
          s2 h2 hne21
        have q2 := findSourceById_setSourceStatus_other _ s1.id s2.id .chunking 25 none _
          q1 hne21
        have q3 := findSourceById_setSourceStatus_other _ s1.id s2.id .failed 0 (some m) _
          q2 hne21
        exact q3
  obtain ⟨f11, f21⟩ := hf
  have e2 := processContentSource_ok ext chk (processContentSource ext chk db s1.id)
    s2.id s2 contentData chunks f21 hext2 hchk2
  have hq : processQueue ext chk db [s1.id, s2.id] =
      processContentSource ext chk (processContentSource ext chk db s1.id) s2.id := rfl
  have F1 : findSourceById (processQueue ext chk db [s1.id, s2.id]) s1.id =
      some { s1 with status := .failed, progressPercentage := 0,
                     errorMessage := some m } := by
    rw [hq, e2]
    have q1 := findSourceById_setSourceStatus_other _ s2.id s1.id .processing 0 none _
      f11 hne
    have q2 := findSourceById_setSourceStatus_other _ s2.id s1.id .chunking 25 none _
      q1 hne
    have q3 := findSourceById_setSourceStatus_other _ s2.id s1.id .embedding 50 none _
      q2 hne
    have q4 := findSourceById_saveContentChunks_other _ s2 chunks s1.id _ q3 hne
    have q5 := findSourceById_setSourceStatus_other _ s2.id s1.id .completed 100 none _
      q4 hne
    exact q5
  have F2 : findSourceById (processQueue ext chk db [s1.id, s2.id]) s2.id =
      some { s2 with status := .completed, progressPercentage := 100,
                     errorMessage := none, totalChunks := chunks.length,
                     processedChunks := chunks.length } := by
    rw [hq, e2]
    have q1 := findSourceById_setSourceStatus_self _ s2.id .processing 0 none _ f21
    have q2 := findSourceById_setSourceStatus_self _ s2.id .chunking 25 none _ q1
    have q3 := findSourceById_setSourceStatus_self _ s2.id .embedding 50 none _ q2
    have q4 := findSourceById_saveContentChunks_self _ s2 chunks s2.id _ q3
      (findSourceById_id db s2.id s2 h2)
    have q5 := findSourceById_setSourceStatus_self _ s2.id .completed 100 none _ q4
    exact q5
  exact ⟨_, _, F1, rfl, rfl, F2, rfl⟩

theorem processQueue_failure_isolated_witness :
    ((pipeSource1.id ≠ pipeSource2.id ∧
       findSourceById pipeDB pipeSource1.id = some pipeSource1 ∧
       findSourceById pipeDB pipeSource2.id = some pipeSource2 ∧
       (pipeExt pipeSource1 = .error "boom" ∨
         ∃ d, pipeExt pipeSource1 = .ok d ∧ pipeChk pipeSource1 d = .error "boom") ∧
       pipeExt pipeSource2 = .ok ⟨"hello world".data⟩ ∧
       pipeChk pipeSource2 ⟨"hello world".data⟩ = .ok ["hello world".data]) ∧
     ∃ s1' s2',
       findSourceById (processQueue pipeExt pipeChk pipeDB [pipeSource1.id, pipeSource2.id])
         pipeSource1.id = some s1' ∧
       s1'.status = .failed ∧ s1'.errorMessage = some "boom" ∧
       findSourceById (processQueue pipeExt pipeChk pipeDB [pipeSource1.id, pipeSource2.id])
         pipeSource2.id = some s2' ∧
       s2'.status = .completed) ∧
    ((pipeSource1.id ≠ pipeSource2.id ∧
       findSourceById pipeDB pipeSource1.id = some pipeSource1 ∧
       findSourceById pipeDB pipeSource2.id = some pipeSource2 ∧
       (pipeExtOk pipeSource1 = .error "split fail" ∨
         ∃ d, pipeExtOk pipeSource1 = .ok d ∧
           pipeChkFail pipeSource1 d = .error "split fail") ∧
       pipeExtOk pipeSource2 = .ok ⟨"hello world".data⟩ ∧
       pipeChkFail pipeSource2 ⟨"hello world".data⟩ = .ok ["hello world".data]) ∧
     ∃ s1' s2',
       findSourceById
         (processQueue pipeExtOk pipeChkFail pipeDB [pipeSource1.id, pipeSource2.id])
         pipeSource1.id = some s1' ∧
       s1'.status = .failed ∧ s1'.errorMessage = some "split fail" ∧
       findSourceById
         (processQueue pipeExtOk pipeChkFail pipeDB [pipeSource1.id, pipeSource2.id])
         pipeSource2.id = some s2' ∧
       s2'.status = .completed) :=
  ⟨⟨⟨by decide, by decide, by decide, Or.inl (by decide), by decide, by decide⟩,
    processQueue_failure_isolated pipeExt pipeChk pipeDB pipeSource1 pipeSource2
      "boom" ⟨"hello world".data⟩ ["hello world".data] (by decide) (by decide) (by decide)
      (Or.inl (by decide)) (by decide) (by decide)⟩,
   ⟨⟨by decide, by decide, by decide,
      Or.inr ⟨⟨"hello world".data⟩, by decide, by decide⟩, by decide, by decide⟩,
    processQueue_failure_isolated pipeExtOk pipeChkFail pipeDB pipeSource1 pipeSource2
      "split fail" ⟨"hello world".data⟩ ["hello world".data] (by decide) (by decide)
      (by decide) (Or.inr ⟨⟨"hello world".data⟩, by decide, by decide⟩) (by decide)
      (by decide)⟩⟩

/-! ### C6: the similarity threshold is enforced by post-processing -/

theorem postProcessGo_threshold (t : ℚ) (m : Nat) :
    ∀ (results : List SearchDoc) (count : Nat) (c : SearchDoc),
      c ∈ postProcessGo results t m count → t ≤ c.score := by
  intro results
  induction results with
  | nil => intro count c hc; simp [postProcessGo] at hc
  | cons r rest ih =>
    intro count c hc
    simp only [postProcessGo] at hc
    by_cases hr : r.score < t
    · rw [if_pos hr] at hc
      exact ih count c hc
    · rw [if_neg hr] at hc
      rcases List.mem_cons.mp hc with rfl | hmem
      · exact le_of_not_lt hr
      · by_cases hm : m ≤ count + 1
        · rw [if_pos hm] at hmem
          simp at hmem
        · rw [if_neg hm] at hmem
          exact ih (count + 1) c hmem

theorem postProcessGo_all_below (t : ℚ) (m : Nat) :
    ∀ (results : List SearchDoc) (count : Nat),
      (∀ r ∈ results, r.score < t) → postProcessGo results t m count = [] := by
  intro results
  induction results with
  | nil => intro count _; rfl
  | cons r rest ih =>
    intro count h
    simp only [postProcessGo]
    rw [if_pos (h r (List.mem_cons_self _ _))]
    exact ih count (fun x hx => h x (List.mem_cons_of_mem _ hx))

/-- C6: for every result list and similarity threshold `t ∈ [0,1]`, every
chunk kept by `_post_process_results` has similarity score at least `t`, and
when nothing scores at least `t` the (total) function returns the empty list
rather than raising. -/
theorem postProcessResults_threshold (results : List SearchDoc) (t : ℚ) (m : Nat)
    (ht0 : 0 ≤ t) (ht1 : t ≤ 1) :
    (∀ c ∈ postProcessResults results t m, t ≤ c.score) ∧
    ((∀ r ∈ results, r.score < t) → postProcessResults results t m = []) :=
  ⟨fun c hc => postProcessGo_threshold t m results 0 c hc,
   fun h => postProcessGo_all_below t m results 0 h⟩

theorem postProcessResults_threshold_witness :
    ((0 : ℚ) ≤ 1 ∧ (1 : ℚ) ≤ 1) ∧
    (∀ c ∈ postProcessResults [⟨"c1", "tenant-A", 1⟩] 1 5, (1 : ℚ) ≤ c.score) ∧
    ((∀ r ∈ [(⟨"c1", "tenant-A", 1⟩ : SearchDoc)], r.score < 1) →
      postProcessResults [⟨"c1", "tenant-A", 1⟩] 1 5 = []) :=
  ⟨⟨by decide, by decide⟩,
    postProcessResults_threshold [⟨"c1", "tenant-A", 1⟩] 1 5 (by decide) (by decide)⟩

/-! ### C1: tenant isolation of semantic search -/

theorem dictGet?_updateEntry_other {α : Type} (d : List (String × α))
    (kv : String × α) (k : String) (hk : (kv.1 == k) = false) :
    dictGet? (dictUpdateEntry d kv) k = dictGet? d k := by
  unfold dictUpdateEntry
  by_cases hany : d.any (fun e => e.1 == kv.1) = true
  · rw [if_pos hany]
    unfold dictGet?
    have hp : ∀ e : String × α,
        ((if e.1 == kv.1 then kv else e).1 == k) = (e.1 == k) := by
      intro e
      by_cases he : (e.1 == kv.1) = true
      · have : e.1 = kv.1 := by simpa using he
        rw [if_pos he]
        rw [this]
      · simp only [Bool.not_eq_true] at he
        rw [he]
        simp
    rw [show (d.map fun e => if e.1 == kv.1 then kv else e).find? (fun e => e.1 == k) =
        (d.find? (fun e => e.1 == k)).map (fun e => if e.1 == kv.1 then kv else e) from
      find?_map_comm _ _ hp d]
    cases hf : d.find? (fun e => e.1 == k) with
    | none => rfl
    | some e =>
      have he1 : e.1 = k := by simpa using List.find?_some hf
      have hne : (e.1 == kv.1) = false := by
        rw [he1]
        rw [Bool.eq_false_iff]
        intro hkk
        rw [show k = kv.1 from by simpa using hkk] at hk
        simp at hk
      rw [Option.map_some', if_neg (by rw [hne]; simp)]
  · rw [if_neg hany]
    unfold dictGet?
    rw [List.find?_append]
    cases hf : d.find? (fun e => e.1 == k) with
    | none =>
      have h1 : ([kv].find? fun e => e.1 == k) = none := by simp [List.find?, hk]
      simp [h1]
    | some e => rfl

theorem dictGet?_pyDictUpdate_none {α : Type} (base upd : List (String × α))
    (k : String) (h : ∀ e ∈ upd, (e.1 == k) = false) :
    dictGet? (pyDictUpdate base upd) k = dictGet? base k := by
  induction upd generalizing base with
  | nil => rfl
  | cons e rest ih =>
    show dictGet? (pyDictUpdate (dictUpdateEntry base e) rest) k = dictGet? base k
    rw [ih (dictUpdateEntry base e) (fun x hx => h x (List.mem_cons_of_mem _ hx)),
      dictGet?_updateEntry_other base e k (h e (List.mem_cons_self _ _))]

theorem searchVectors_tenant (points : List StoredPoint) (score : StoredPoint → ℚ)
    (limit : Nat) (filters : List (String × String)) (v : String)
    (hv : dictGet? filters "tenant_id" = some v) :
    ∀ d ∈ searchVectors points score limit filters, d.tenantId = v := by
  intro d hd
  simp only [searchVectors, hv] at hd
  obtain ⟨p, hp, rfl⟩ := List.mem_map.mp hd
  have hp2 := List.mem_of_mem_take hp
  have hp3 := (List.mem_insertionSort _).mp hp2
  simpa using (List.mem_filter.mp hp3).2

theorem postProcessGo_subset (t : ℚ) (m : Nat) :
    ∀ (results : List SearchDoc) (count : Nat) (c : SearchDoc),
      c ∈ postProcessGo results t m count → c ∈ results := by
  intro results
  induction results with
  | nil => intro count c hc; simp [postProcessGo] at hc
  | cons r rest ih =>
    intro count c hc
    simp only [postProcessGo] at hc
    by_cases hr : r.score < t
    · rw [if_pos hr] at hc
      exact List.mem_cons_of_mem _ (ih count c hc)
    · rw [if_neg hr] at hc
      rcases List.mem_cons.mp hc with rfl | hmem
      · exact List.mem_cons_self _ _
      · by_cases hm : m ≤ count + 1
        · rw [if_pos hm] at hmem
          simp at hmem
        · rw [if_neg hm] at hmem
          exact List.mem_cons_of_mem _ (ih (count + 1) c hmem)

/-- C1 (amended): for every store state, backend scoring, tenant, collection
and configuration, and every caller-supplied filter map that does not itself
bind the key `tenant_id`, semantic search through `search_knowledge` returns
only chunks stored with the querying tenant's id.  The unamended claim — for
*every* caller-supplied filter map — fails because `_semantic_search` merges
the request filters with `filters.update(request.filters)`, letting a caller
override the tenant-isolation filter: see `semanticSearch_filter_override_leak`. -/
theorem searchKnowledgeSemantic_tenant_isolation
    (store : List (String × List StoredPoint)) (score : StoredPoint → ℚ)
    (collection : VectorCollection) (request : SearchRequest) (tid : String)
    (hcoll : collection.tenantId = tid)
    (hfil : dictGet? request.filters "tenant_id" = none) :
    ∀ c ∈ searchKnowledgeSemantic store score collection request, c.tenantId = tid := by
  intro c hc
  have hsub : c ∈ semanticSearch store score collection request :=
    postProcessGo_subset _ _ _ 0 c hc
  have hfil2 : ∀ e ∈ request.filters, (e.1 == "tenant_id") = false := by
    intro e he
    have hnone : request.filters.find? (fun e => e.1 == "tenant_id") = none := by
      unfold dictGet? at hfil
      exact Option.map_eq_none'.mp hfil
    have := List.find?_eq_none.mp hnone e he
    simpa using this
  have hlook : dictGet?
      (pyDictUpdate [("tenant_id", collection.tenantId)] request.filters)
      "tenant_id" = some collection.tenantId := by
    rw [dictGet?_pyDictUpdate_none _ _ _ hfil2]
    rfl
  have := searchVectors_tenant (storePoints store collection.collectionId) score
    (request.config.maxChunks * 2) _ collection.tenantId hlook c hsub
  rw [← hcoll]
  exact this

theorem searchKnowledgeSemantic_tenant_isolation_witness :
    (leakCollection.tenantId = "tenant-A" ∧
      dictGet? cleanRequest.filters "tenant_id" = none) ∧
    ∀ c ∈ searchKnowledgeSemantic ownStore constScore leakCollection cleanRequest,
      c.tenantId = "tenant-A" :=
  ⟨⟨by decide, by decide⟩,
    searchKnowledgeSemantic_tenant_isolation ownStore constScore leakCollection
      cleanRequest "tenant-A" (by decide) (by decide)⟩

/-- C1 counterexample: tenant A's semantic search with the caller-supplied
filter map `{"tenant_id": "tenant-B"}` — `filters.update(request.filters)`
replaces the isolation filter — returns a chunk stored with tenant B's id
from the searched collection. -/
theorem semanticSearch_filter_override_leak :
    ∃ c ∈ searchKnowledgeSemantic leakStore constScore leakCollection leakRequest,
      c.tenantId ≠ leakCollection.tenantId := by decide

/-! ### C7: hybrid score combination -/

theorem mem_dictUpdateEntry {α : Type} (d : List (String × α)) (kv e : String × α)
    (he : e ∈ dictUpdateEntry d kv) : e ∈ d ∨ e = kv := by
  unfold dictUpdateEntry at he
  by_cases h : d.any (fun x => x.1 == kv.1) = true
  · rw [if_pos h] at he
    obtain ⟨x, hx, hxe⟩ := List.mem_map.mp he
    by_cases hx1 : (x.1 == kv.1) = true
    · rw [if_pos hx1] at hxe
      right
      exact hxe.symm
    · rw [if_neg hx1] at hxe
      left
      exact hxe ▸ hx
  · rw [if_neg h] at he
    rcases List.mem_append.mp he with h1 | h2
    · left; exact h1
    · right; simpa using h2

theorem buildScoreDict_chunkId (rs : List SearchDoc) :
    ∀ e ∈ buildScoreDict rs, e.2.chunkId = e.1 := by
  suffices h : ∀ (rs : List SearchDoc) (acc : List (String × SearchDoc)),
      (∀ e ∈ acc, e.2.chunkId = e.1) →
      ∀ e ∈ rs.foldl (fun d r => dictUpdateEntry d (r.chunkId, r)) acc,
        e.2.chunkId = e.1 by
    intro e he
    exact h rs [] (by intro x hx; simp at hx) e he
  intro rs
  induction rs with
  | nil => intro acc hacc e he; exact hacc e he
  | cons r rest ih =>
    intro acc hacc e he
    refine ih (dictUpdateEntry acc (r.chunkId, r)) ?_ e he
    intro x hx
    rcases mem_dictUpdateEntry acc (r.chunkId, r) x hx with h1 | h2
    · exact hacc x h1
    · rw [h2]

theorem dictGet?_buildScoreDict_chunkId (rs : List SearchDoc) (cid : String)
    (r : SearchDoc) (h : dictGet? (buildScoreDict rs) cid = some r) :
    r.chunkId = cid := by
  unfold dictGet? at h
  cases hf : (buildScoreDict rs).find? (fun e => e.1 == cid) with
  | none => rw [hf] at h; simp at h
  | some e =>
    rw [hf, Option.map_some'] at h
    injection h with h2
    have h1 : e.1 = cid := by simpa using List.find?_some hf
    have h3 := buildScoreDict_chunkId rs e (List.mem_of_find?_eq_some hf)
    rw [← h2, h3, h1]

theorem keywordSearch_fixed_score (db : ContentDB) (tid : String) (query : List Char)
    (limit : Nat) :
    ∀ r ∈ keywordSearch db tid query limit, r.score = keywordMatchScore := by
  intro r hr
  simp only [keywordSearch] at hr
  obtain ⟨c, _, rfl⟩ := List.mem_map.mp hr
  rfl

theorem combineSearchResults_score (sem kw : List SearchDoc) (w : ℚ) (d : SearchDoc)
    (hd : d ∈ combineSearchResults sem kw w) :
    d.score =
      ((dictGet? (buildScoreDict sem) d.chunkId).map (fun r => r.score)).getD 0 * (1 - w) +
      ((dictGet? (buildScoreDict kw) d.chunkId).map (fun r => r.score)).getD 0 * w := by
  simp only [combineSearchResults, sortByScoreDesc] at hd
  have hd2 := (List.mem_insertionSort _).mp hd
  obtain ⟨cid, _, hsome⟩ := List.mem_filterMap.mp hd2
  cases hs : dictGet? (buildScoreDict sem) cid with
  | some s =>
    have hsc : s.chunkId = cid := dictGet?_buildScoreDict_chunkId sem cid s hs
    cases hk : dictGet? (buildScoreDict kw) cid with
    | some kd =>
      rw [hs, hk] at hsome
      injection hsome with h
      subst h
      rw [show ({ s with score := s.score * (1 - w) + kd.score * w } : SearchDoc).chunkId
          = cid from hsc, hs, hk]
      simp
    | none =>
      rw [hs, hk] at hsome
      injection hsome with h
      subst h
      rw [show ({ s with score := s.score * (1 - w) + 0 * w } : SearchDoc).chunkId
          = cid from hsc, hs, hk]
      simp
  | none =>
    cases hk : dictGet? (buildScoreDict kw) cid with
    | some kd =>
      have hkc : kd.chunkId = cid := dictGet?_buildScoreDict_chunkId kw cid kd hk
      rw [hs, hk] at hsome
      injection hsome with h
      subst h
      rw [show ({ kd with score := 0 * (1 - w) + kd.score * w } : SearchDoc).chunkId
          = cid from hkc, hs, hk]
      simp
    | none =>
      rw [hs, hk] at hsome
      exact absurd hsome (by simp)

/-- C7 (amended): for every chunk id in the combined hybrid result, the
assigned score is `semantic*(1-w) + keyword*w` where a component missing from
its result set contributes 0 (not the fixed keyword score: see
`combineSearchResults_missing_component_counterexample`); every entry of the
keyword result set itself carries the fixed keyword score 0.5, so a
keyword-only chunk ends up with `0.5*w` and a semantic-only chunk with
`s*(1-w)`. -/
theorem combineSearchResults_formula (sem kw : List SearchDoc) (w : ℚ)
    (db : ContentDB) (tid : String) (query : List Char) (limit : Nat) :
    (∀ d ∈ combineSearchResults sem kw w,
      d.score =
        ((dictGet? (buildScoreDict sem) d.chunkId).map (fun r => r.score)).getD 0 * (1 - w) +
        ((dictGet? (buildScoreDict kw) d.chunkId).map (fun r => r.score)).getD 0 * w) ∧
    (∀ r ∈ keywordSearch db tid query limit, r.score = keywordMatchScore) :=
  ⟨fun d hd => combineSearchResults_score sem kw w d hd,
   keywordSearch_fixed_score db tid query limit⟩

theorem combineSearchResults_formula_witness :
    ∃ d, d ∈ combineSearchResults semFixture [] 0 ∧
      d.score =
        ((dictGet? (buildScoreDict semFixture) d.chunkId).map (fun r => r.score)).getD 0
          * (1 - 0) +
        ((dictGet? (buildScoreDict ([] : List SearchDoc)) d.chunkId).map
          (fun r => r.score)).getD 0 * 0 := by
  have hmem : combinedFixture ∈ combineSearchResults semFixture [] 0 :=
    List.mem_singleton_self _
  exact ⟨_, hmem,
    (combineSearchResults_formula semFixture [] 0 pipeDB "tenant-1" "hello".data 5).1
      _ hmem⟩

/-- C7 counterexample: a chunk present only in the semantic set (score 1),
combined with keyword weight `w = 1`.  The code assigns `1*(1-1) + 0*1 = 0`;
the claim's reading — the missing keyword component defaults to the fixed
keyword score 0.5 — would give `1*(1-1) + 0.5*1 = 0.5 ≠ 0`. -/
theorem combineSearchResults_missing_component_counterexample :
    (combineSearchResults semFixture [] 1).map (fun d => d.score) =
      [1 * (1 - 1) + 0 * 1] ∧
    (1 : ℚ) * (1 - 1) + 0 * 1 = 0 ∧
    (1 : ℚ) * (1 - 1) + keywordMatchScore * 1 = 1 / 2 ∧
    (0 : ℚ) ≠ 1 / 2 := by
  refine ⟨rfl, by norm_num, ?_, by norm_num⟩
  rw [keywordMatchScore]
  norm_num

/-! ### C9: the keyed upsert is idempotent

The characterization `upsertVectors_char` describes the store a batch of
keyed upserts leaves behind: existing rows are overridden by the batch's
last write at their pid, and one row per fresh pid is appended (`ntail`).
Replaying the same batch then changes nothing. -/

theorem lastOcc_pid : ∀ (ps : List StoredPoint) (k : String) (v : StoredPoint),
    lastOcc ps k = some v → v.pid = k := by
  intro ps
  induction ps with
  | nil => intro k v h; simp [lastOcc] at h
  | cons p rest ih =>
    intro k v h
    simp only [lastOcc] at h
    cases hl : lastOcc rest k with
    | some w =>
      rw [hl] at h
      injection h with h2
      subst h2
      exact ih k _ hl
    | none =>
      rw [hl] at h
      by_cases hp : (p.pid == k) = true
      · rw [if_pos hp] at h
        injection h with h2
        subst h2
        simpa using hp
      · rw [if_neg hp] at h
        simp at h

theorem ovr_pid (ps : List StoredPoint) (q : StoredPoint) : (ovr ps q).pid = q.pid := by
  unfold ovr
  cases hl : lastOcc ps q.pid with
  | some v => exact lastOcc_pid ps q.pid v hl
  | none => rfl

theorem ovr_cons_self (ps : List StoredPoint) (p : StoredPoint) :
    ovr (p :: ps) p = ovr ps p := by
  unfold ovr
  simp only [lastOcc]
  cases hl : lastOcc ps p.pid with
  | some v => rfl
  | none => simp

theorem ovr_cons_of_ne (ps : List StoredPoint) (p q : StoredPoint)
    (h : (p.pid == q.pid) = false) : ovr (p :: ps) q = ovr ps q := by
  unfold ovr
  simp only [lastOcc]
  cases hl : lastOcc ps q.pid with
  | some v => rfl
  | none => simp [h]

theorem ovr_cons_replace (ps : List StoredPoint) (p q : StoredPoint) :
    ovr ps (if q.pid == p.pid then p else q) = ovr (p :: ps) q := by
  by_cases h : (q.pid == p.pid) = true
  · have hq : q.pid = p.pid := by simpa using h
    rw [if_pos h]
    unfold ovr
    simp only [lastOcc, hq]
    cases hl : lastOcc ps p.pid with
    | some v => rfl
    | none => simp
  · rw [if_neg h]
    have h2 : (p.pid == q.pid) = false := by
      rw [beq_eq_false_iff_ne]
      rw [Bool.not_eq_true, beq_eq_false_iff_ne] at h
      exact fun e => h e.symm
    exact (ovr_cons_of_ne ps p q h2).symm

theorem pid_replace (p q : StoredPoint) :
    (if q.pid == p.pid then p else q).pid = q.pid := by
  by_cases h : (q.pid == p.pid) = true
  · rw [if_pos h]
    exact (by simpa using h : q.pid = p.pid).symm
  · rw [if_neg h]

theorem pidsOf_replace (st : List StoredPoint) (p : StoredPoint) :
    pidsOf (st.map (fun q => if q.pid == p.pid then p else q)) = pidsOf st := by
  unfold pidsOf
  rw [List.map_map]
  exact List.map_congr_left (fun q _ => pid_replace p q)

theorem pidsOf_any (st : List StoredPoint) (k : String) :
    (pidsOf st).any (fun x => x == k) = st.any (fun q => q.pid == k) := by
  induction st with
  | nil => rfl
  | cons p rest ih =>
    unfold pidsOf at ih ⊢
    simp only [List.map_cons, List.any_cons]
    rw [ih]

theorem ntail_seen_congr : ∀ (ps : List StoredPoint) (seen1 seen2 : List String),
    (∀ k, seen1.any (fun x => x == k) = seen2.any (fun x => x == k)) →
    ntail seen1 ps = ntail seen2 ps := by
  intro ps
  induction ps with
  | nil => intro _ _ _; rfl
  | cons p rest ih =>
    intro seen1 seen2 h
    simp only [ntail]
    rw [h p.pid]
    by_cases hg : seen2.any (fun x => x == p.pid) = true
    · rw [if_pos hg, if_pos hg]
      exact ih seen1 seen2 h
    · rw [if_neg hg, if_neg hg]
      rw [ih (p.pid :: seen1) (p.pid :: seen2)
        (fun k => by simp only [List.any_cons, h k])]

theorem upsertVectors_char : ∀ (ps st : List StoredPoint),
    upsertVectors st ps = st.map (ovr ps) ++ ntail (pidsOf st) ps := by
  intro ps
  induction ps with
  | nil =>
    intro st
    show st = st.map (ovr []) ++ ntail (pidsOf st) []
    rw [show ntail (pidsOf st) [] = [] from rfl, List.append_nil,
      List.map_id'' (fun q => (rfl : ovr [] q = q)) st]
  | cons p rest ih =>
    intro st
    show upsertVectors (upsertPoint st p) rest = _
    rw [ih (upsertPoint st p)]
    unfold upsertPoint
    by_cases hany : st.any (fun q => q.pid == p.pid) = true
    · rw [if_pos hany, pidsOf_replace st p]
      have hguard : (pidsOf st).any (fun x => x == p.pid) = true := by
        rw [pidsOf_any]; exact hany
      rw [show ntail (pidsOf st) (p :: rest) = ntail (pidsOf st) rest from by
        simp only [ntail]; rw [if_pos hguard]]
      rw [List.map_map]
      congr 1
      exact List.map_congr_left (fun q _ => ovr_cons_replace rest p q)
    · rw [if_neg hany, List.map_append]
      have hpids : pidsOf (st ++ [p]) = pidsOf st ++ [p.pid] := by
        unfold pidsOf; rw [List.map_append]; rfl
      rw [hpids]
      have hguard : (pidsOf st).any (fun x => x == p.pid) = false := by
        rw [pidsOf_any]; exact Bool.eq_false_iff.mpr hany
      rw [show ntail (pidsOf st) (p :: rest)
          = ovr (p :: rest) p :: ntail (p.pid :: pidsOf st) rest from by
        simp only [ntail]; rw [if_neg (by rw [hguard]; simp)]]
      have hmap : st.map (ovr rest) = st.map (ovr (p :: rest)) := by
        apply List.map_congr_left
        intro q hq
        have hqp : (p.pid == q.pid) = false := by
          by_cases hc : (q.pid == p.pid) = true
          · exact absurd (List.any_eq_true.mpr ⟨q, hq, hc⟩) hany
          · rw [Bool.not_eq_true, beq_eq_false_iff_ne] at hc
            rw [beq_eq_false_iff_ne]
            exact fun e => hc e.symm
        exact (ovr_cons_of_ne rest p q hqp).symm
      have hseen : ntail (pidsOf st ++ [p.pid]) rest = ntail (p.pid :: pidsOf st) rest := by
        apply ntail_seen_congr
        intro k
        rw [List.any_append, List.any_cons]
        simp [Bool.or_comm]
      rw [hmap, hseen, ovr_cons_self, List.append_assoc]
      rfl

theorem ntail_mem_lastOcc : ∀ (ps : List StoredPoint) (seen : List String)
    (q : StoredPoint), q ∈ ntail seen ps → lastOcc ps q.pid = some q := by
  intro ps
  induction ps with
  | nil => intro seen q hq; simp [ntail] at hq
  | cons p rest ih =>
    intro seen q hq
    simp only [ntail] at hq
    by_cases hg : seen.any (fun x => x == p.pid) = true
    · rw [if_pos hg] at hq
      have h := ih seen q hq
      simp only [lastOcc, h]
    · rw [if_neg hg] at hq
      rcases List.mem_cons.mp hq with rfl | hmem
      · rw [ovr_pid]
        unfold ovr
        simp only [lastOcc]
        cases hl : lastOcc rest p.pid with
        | some v => rfl
        | none => simp
      · have h := ih (p.pid :: seen) q hmem
        simp only [lastOcc, h]

theorem ntail_all_seen : ∀ (ps : List StoredPoint) (seen : List String),
    (∀ p ∈ ps, seen.any (fun x => x == p.pid) = true) → ntail seen ps = [] := by
  intro ps
  induction ps with
  | nil => intro _ _; rfl
  | cons p rest ih =>
    intro seen h
    simp only [ntail]
    rw [if_pos (h p (List.mem_cons_self _ _))]
    exact ih seen (fun x hx => h x (List.mem_cons_of_mem _ hx))

theorem ntail_pid_mem : ∀ (ps : List StoredPoint) (seen : List String) (k : String),
    seen.any (fun x => x == k) = false → ps.any (fun p => p.pid == k) = true →
    (ntail seen ps).any (fun q => q.pid == k) = true := by
  intro ps
  induction ps with
  | nil => intro seen k _ h2; simp at h2
  | cons p rest ih =>
    intro seen k h1 h2
    simp only [ntail]
    by_cases hpk : (p.pid == k) = true
    · have hp : p.pid = k := by simpa using hpk
      rw [if_neg (by rw [hp, h1]; simp)]
      simp only [List.any_cons]
      rw [show ((ovr (p :: rest) p).pid == k) = true from by rw [ovr_pid, hp]; simp]
      rfl
    · have hpk' : (p.pid == k) = false := Bool.eq_false_iff.mpr hpk
      have h2' : rest.any (fun p => p.pid == k) = true := by
        simp only [List.any_cons, hpk', Bool.false_or] at h2
        exact h2
      by_cases hg : seen.any (fun x => x == p.pid) = true
      · rw [if_pos hg]
        exact ih seen k h1 h2'
      · rw [if_neg hg]
        simp only [List.any_cons]
        rw [ih (p.pid :: seen) k (by simp only [List.any_cons, hpk', h1]; rfl) h2']
        simp

theorem ovr_idem (ps : List StoredPoint) (q : StoredPoint) :
    ovr ps (ovr ps q) = ovr ps q := by
  unfold ovr
  cases hl : lastOcc ps q.pid with
  | none => simp [hl]
  | some v =>
    have hv := lastOcc_pid ps q.pid v hl
    simp [hl, hv]

theorem upsertVectors_map_fix (st ps : List StoredPoint) :
    (upsertVectors st ps).map (ovr ps) = upsertVectors st ps := by
  rw [upsertVectors_char ps st, List.map_append, List.map_map]
  congr 1
  · exact List.map_congr_left (fun q _ => ovr_idem ps q)
  · have h : ∀ q ∈ ntail (pidsOf st) ps, ovr ps q = q := by
      intro q hq
      have hl := ntail_mem_lastOcc ps (pidsOf st) q hq
      unfold ovr
      rw [hl]
    rw [List.map_congr_left h, List.map_id']

theorem upsertVectors_ntail_nil (st ps : List StoredPoint) :
    ntail (pidsOf (upsertVectors st ps)) ps = [] := by
  apply ntail_all_seen
  intro p hp
  rw [pidsOf_any, upsertVectors_char ps st, List.any_append]
  have hmapped : ∀ st' : List StoredPoint,
      (st'.map (ovr ps)).any (fun q => q.pid == p.pid)
        = st'.any (fun q => q.pid == p.pid) := by
    intro st'
    induction st' with
    | nil => rfl
    | cons r rest ihr =>
      simp only [List.map_cons, List.any_cons, ihr, ovr_pid]
  by_cases hst : st.any (fun q => q.pid == p.pid) = true
  · rw [hmapped st, hst]
    rfl
  · have hfalse : st.any (fun q => q.pid == p.pid) = false := Bool.eq_false_iff.mpr hst
    have h2 : ps.any (fun q => q.pid == p.pid) = true :=
      List.any_eq_true.mpr ⟨p, hp, by simp⟩
    have h3 := ntail_pid_mem ps (pidsOf st) p.pid (by rw [pidsOf_any]; exact hfalse) h2
    rw [h3]
    simp

theorem upsertVectors_idem (st ps : List StoredPoint) :
    upsertVectors (upsertVectors st ps) ps = upsertVectors st ps := by
  rw [upsertVectors_char ps (upsertVectors st ps), upsertVectors_map_fix,
    upsertVectors_ntail_nil, List.append_nil]

/-- C9: the vector data `_process_embedding_job` builds is keyed by chunk id
(`"id": metadata["chunk_id"]`), and the Qdrant upsert overwrites by point id,
so upserting the same chunk set twice leaves the vector store in exactly the
state a single upsert produces — re-running an embedding job with the same
chunk ids is idempotent at the vector-store layer and no chunk id gains a
duplicate vector. -/
theorem embedChunks_upsert_idempotent (store : List StoredPoint)
    (rows : List ChunkEmbedInput) :
    upsertVectors (upsertVectors store (prepareVectorData rows))
        (prepareVectorData rows) =
      upsertVectors store (prepareVectorData rows) ∧
    ∀ p ∈ prepareVectorData rows, p.pid = p.chunkId := by
  refine ⟨upsertVectors_idem store (prepareVectorData rows), ?_⟩
  intro p hp
  obtain ⟨r, _, rfl⟩ := List.mem_map.mp hp
  rfl

theorem embedChunks_upsert_idempotent_witness :
    upsertVectors (upsertVectors [leakedPoint]
        (prepareVectorData [⟨"chunk-1", "tenant-A", [1, 0]⟩]))
        (prepareVectorData [⟨"chunk-1", "tenant-A", [1, 0]⟩]) =
      upsertVectors [leakedPoint] (prepareVectorData [⟨"chunk-1", "tenant-A", [1, 0]⟩]) ∧
    ∀ p ∈ prepareVectorData [⟨"chunk-1", "tenant-A", [1, 0]⟩], p.pid = p.chunkId :=
  embedChunks_upsert_idempotent [leakedPoint] [⟨"chunk-1", "tenant-A", [1, 0]⟩]

/-! ### The accounting invariant is maintained by the service

`deleteContentSource_usage` assumes `tenantAccounting`, the invariant that a
tenant's counters equal the count and total recorded size of its sources.
The following lemmas show the content-service operations preserve it, so it
holds in every service-reachable state (a fresh tenant with zero counters
and no sources satisfies it trivially; deletion additionally needs the
primary-key uniqueness of source ids, which the database schema enforces). -/

theorem updateTenant_preserves_accounting (db : ContentDB) (tid : String)
    (f : Tenant → Tenant) (hid : ∀ t, (f t).id = t.id)
    (hdc : ∀ t, (f t).documentCount = t.documentCount)
    (hst : ∀ t, (f t).storageUsedMb = t.storageUsedMb)
    (hacc : ∀ t ∈ db.tenants, tenantAccounting db t) :
    ∀ t' ∈ (updateTenant db tid f).tenants, tenantAccounting (updateTenant db tid f) t' := by
  intro t' ht'
  obtain ⟨t, ht, rfl⟩ := List.mem_map.mp ht'
  have hat := hacc t ht
  by_cases hc : (t.id == tid) = true
  · rw [if_pos hc]
    constructor
    · show (f t).documentCount = ((ownedSources db (f t).id).length : Int)
      rw [hdc, hid]
      exact hat.1
    · show (f t).storageUsedMb =
        ((ownedSources db (f t).id).map (fun s => (s.fileSizeMb : Int))).sum
      rw [hst, hid]
      exact hat.2
  · rw [if_neg hc]
    exact hat

theorem checkTenantQuotas_fst_none (db : ContentDB) (now : Int) (tid : String) (est : Int)
    (hf : findTenant db tid = none) :
    (checkTenantQuotas db now tid est).1 = db := by
  simp only [checkTenantQuotas, hf]

theorem checkTenantQuotas_fst_some (db : ContentDB) (now : Int) (tid : String) (est : Int)
    (t : Tenant) (hf : findTenant db tid = some t) :
    (checkTenantQuotas db now tid est).1 = updateTenant db tid (monthlyReset now) := by
  simp only [checkTenantQuotas, hf]
  split
  · rfl
  · split
    · rfl
    · rfl

theorem checkTenantQuotas_preserves_accounting (db : ContentDB) (now : Int)
    (tid : String) (est : Int)
    (hacc : ∀ t ∈ db.tenants, tenantAccounting db t) :
    ∀ t' ∈ (checkTenantQuotas db now tid est).1.tenants,
      tenantAccounting (checkTenantQuotas db now tid est).1 t' := by
  cases hf : findTenant db tid with
  | none =>
    intro t' ht'
    rw [checkTenantQuotas_fst_none db now tid est hf] at ht' ⊢
    exact hacc t' ht'
  | some t =>
    intro t' ht'
    rw [checkTenantQuotas_fst_some db now tid est t hf] at ht' ⊢
    exact updateTenant_preserves_accounting db tid (monthlyReset now)
      (monthlyReset_id now) (monthlyReset_documentCount now)
      (monthlyReset_storageUsedMb now) hacc t' ht'

theorem ownedSources_append (db : ContentDB) (src : ContentSource) (k : String) :
    ownedSources { db with sources := db.sources ++ [src] } k =
      if src.tenantId == k then ownedSources db k ++ [src] else ownedSources db k := by
  show (db.sources ++ [src]).filter (fun s => s.tenantId == k) =
    if src.tenantId == k then db.sources.filter (fun s => s.tenantId == k) ++ [src]
    else db.sources.filter (fun s => s.tenantId == k)
  by_cases h : (src.tenantId == k) = true
  · simp [List.filter_append, List.filter_singleton, h]
  · simp [List.filter_append, List.filter_singleton, h]

theorem appendSource_usage_preserves (db1 : ContentDB) (tid : String) (src : ContentSource)
    (hsrct : src.tenantId = tid)
    (hacc1 : ∀ t ∈ db1.tenants, tenantAccounting db1 t) :
    ∀ t' ∈ (updateTenantUsage { db1 with sources := db1.sources ++ [src] } tid 1
        (src.fileSizeMb : Int)).tenants,
      tenantAccounting (updateTenantUsage { db1 with sources := db1.sources ++ [src] } tid 1
        (src.fileSizeMb : Int)) t' := by
  intro t' ht'
  have ht'' : t' ∈ db1.tenants.map (fun t =>
      if t.id == tid then
        { t with documentCount := t.documentCount + 1,
                 storageUsedMb := t.storageUsedMb + (src.fileSizeMb : Int) }
      else t) := ht'
  obtain ⟨t, ht, rfl⟩ := List.mem_map.mp ht''
  have hat := hacc1 t ht
  by_cases hck : (t.id == tid) = true
  · rw [if_pos hck]
    have hte : t.id = tid := eq_of_beq hck
    have hbeq : (src.tenantId == t.id) = true := by
      rw [hsrct, hte]
      exact beq_self_eq_true tid
    constructor
    · show t.documentCount + 1 =
        ((ownedSources { db1 with sources := db1.sources ++ [src] } t.id).length : Int)
      rw [ownedSources_append db1 src t.id, if_pos hbeq, List.length_append, hat.1]
      simp
    · show t.storageUsedMb + (src.fileSizeMb : Int) =
        ((ownedSources { db1 with sources := db1.sources ++ [src] } t.id).map
          (fun s => (s.fileSizeMb : Int))).sum
      rw [ownedSources_append db1 src t.id, if_pos hbeq, List.map_append,
        List.sum_append, hat.2]
      simp
  · rw [if_neg hck]
    have hne : t.id ≠ tid := by simpa using hck
    have hbne : ¬ (src.tenantId == t.id) = true := by
      rw [hsrct]
      simp
      exact fun e => hne e.symm
    constructor
    · show t.documentCount =
        ((ownedSources { db1 with sources := db1.sources ++ [src] } t.id).length : Int)
      rw [ownedSources_append db1 src t.id, if_neg hbne]
      exact hat.1
    · show t.storageUsedMb =
        ((ownedSources { db1 with sources := db1.sources ++ [src] } t.id).map
          (fun s => (s.fileSizeMb : Int))).sum
      rw [ownedSources_append db1 src t.id, if_neg hbne]
      exact hat.2

theorem createContentSource_fst_error (db : ContentDB) (now : Int) (tid nsid ctype : String)
    (upsize : Option Nat) (db1 : ContentDB) (e : SvcError)
    (hc : checkTenantQuotas db now tid ((upsize.getD 0 : Nat) : Int) = (db1, Except.error e)) :
    (createContentSource db now tid nsid ctype upsize).1 = db1 := by
  simp only [createContentSource]
  rw [hc]

theorem createContentSource_fst_ok (db : ContentDB) (now : Int) (tid nsid ctype : String)
    (upsize : Option Nat) (db1 : ContentDB) (u : Tenant)
    (hc : checkTenantQuotas db now tid ((upsize.getD 0 : Nat) : Int) = (db1, Except.ok u)) :
    (createContentSource db now tid nsid ctype upsize).1 =
      updateTenantUsage { db1 with sources := db1.sources ++
        [{ id := nsid, tenantId := tid, contentType := ctype, status := .pending,
           progressPercentage := 0, errorMessage := none, fileSizeMb := upsize.getD 0,
           totalChunks := 0, processedChunks := 0 }] } tid 1 ((upsize.getD 0 : Nat) : Int) := by
  simp only [createContentSource]
  rw [hc]

/-- `create_content_source` preserves the accounting invariant: after the call
(success or rejection) every tenant's counters still equal the number and
total size of its sources. -/
theorem createContentSource_preserves_accounting (db : ContentDB) (now : Int)
    (tid nsid ctype : String) (upsize : Option Nat)
    (hacc : ∀ t ∈ db.tenants, tenantAccounting db t) :
    ∀ t' ∈ (createContentSource db now tid nsid ctype upsize).1.tenants,
      tenantAccounting (createContentSource db now tid nsid ctype upsize).1 t' := by
  have hq := checkTenantQuotas_preserves_accounting db now tid
    ((upsize.getD 0 : Nat) : Int) hacc
  cases hc : checkTenantQuotas db now tid ((upsize.getD 0 : Nat) : Int) with
  | mk db1 r =>
    rw [hc] at hq
    cases r with
    | error e =>
      intro t' ht'
      rw [createContentSource_fst_error db now tid nsid ctype upsize db1 e hc] at ht' ⊢
      exact hq t' ht'
    | ok u =>
      intro t' ht'
      rw [createContentSource_fst_ok db now tid nsid ctype upsize db1 u hc] at ht' ⊢
      exact appendSource_usage_preserves db1 tid
        { id := nsid, tenantId := tid, contentType := ctype, status := .pending,
          progressPercentage := 0, errorMessage := none, fileSizeMb := upsize.getD 0,
          totalChunks := 0, processedChunks := 0 } rfl hq t' ht'

theorem filter_swap {α : Type} (p q : α → Bool) (l : List α) :
    (l.filter p).filter q = (l.filter q).filter p := by
  rw [List.filter_filter, List.filter_filter]
  congr 1
  funext a
  exact Bool.and_comm _ _

theorem filter_unique_length_sum (l : List ContentSource) (sid : String) (src : ContentSource)
    (hnd : (l.map (fun s => s.id)).Nodup) (hmem : src ∈ l) (hid : src.id = sid) :
    ((l.filter (fun s => !(s.id == sid))).length : Int) = (l.length : Int) - 1 ∧
    ((l.filter (fun s => !(s.id == sid))).map (fun s => (s.fileSizeMb : Int))).sum =
      (l.map (fun s => (s.fileSizeMb : Int))).sum - (src.fileSizeMb : Int) := by
  induction l with
  | nil => cases hmem
  | cons a l ih =>
    rw [List.map_cons, List.nodup_cons] at hnd
    obtain ⟨hna, hndl⟩ := hnd
    rcases List.mem_cons.mp hmem with heq | hmeml
    · have ha : (a.id == sid) = true := by
        rw [← heq, hid]
        exact beq_self_eq_true sid
      have hlf : l.filter (fun s => !(s.id == sid)) = l := by
        rw [List.filter_eq_self]
        intro s hs
        have hsneq : s.id ≠ sid := by
          intro hcon
          exact hna (by rw [eq_of_beq ha, ← hcon]; exact List.mem_map_of_mem _ hs)
        simp [hsneq]
      have hfc : (a :: l).filter (fun s => !(s.id == sid)) = l := by
        simp [List.filter_cons, ha, hlf]
      refine ⟨?_, ?_⟩
      · rw [hfc]
        simp only [List.length_cons]
        push_cast
        ring
      · rw [hfc, heq]
        simp only [List.map_cons, List.sum_cons]
        ring
    · have hane : ¬ (a.id == sid) = true := by
        simp only [beq_iff_eq]
        intro hcon
        exact hna (by rw [hcon, ← hid]; exact List.mem_map_of_mem _ hmeml)
      have hfc : (a :: l).filter (fun s => !(s.id == sid)) =
          a :: l.filter (fun s => !(s.id == sid)) := by
        simp [List.filter_cons, hane]
      obtain ⟨ih1, ih2⟩ := ih hndl hmeml
      refine ⟨?_, ?_⟩
      · rw [hfc]
        simp only [List.length_cons]
        push_cast at ih1 ⊢
        omega
      · rw [hfc]
        simp only [List.map_cons, List.sum_cons]
        rw [ih2]
        ring

theorem deleteContentSource_fst_none (db : ContentDB) (tid sid : String)
    (hf : findOwnedSource db tid sid = none) :
    (deleteContentSource db tid sid).1 = db := by
  simp only [deleteContentSource, hf]

theorem deleteContentSource_fst_some (db : ContentDB) (tid sid : String) (src : ContentSource)
    (hf : findOwnedSource db tid sid = some src) :
    (deleteContentSource db tid sid).1 =
      updateTenantUsage { db with
        sources := db.sources.filter (fun s => !(s.id == sid)),
        chunks := db.chunks.filter (fun c => !(c.sourceId == sid)) }
        tid (-1) (-(src.fileSizeMb : Int)) := by
  simp only [deleteContentSource, hf]

/-- `delete_content_source` preserves the accounting invariant, given the
primary-key uniqueness of source ids: after a deletion every tenant's
counters still equal the number and total size of its remaining sources
(in particular they stay nonnegative). -/
theorem deleteContentSource_preserves_accounting (db : ContentDB) (tid sid : String)
    (hnd : (db.sources.map (fun s => s.id)).Nodup)
    (hacc : ∀ t ∈ db.tenants, tenantAccounting db t) :
    ∀ t' ∈ (deleteContentSource db tid sid).1.tenants,
      tenantAccounting (deleteContentSource db tid sid).1 t' := by
  cases hf : findOwnedSource db tid sid with
  | none =>
    intro t' ht'
    rw [deleteContentSource_fst_none db tid sid hf] at ht' ⊢
    exact hacc t' ht'
  | some src =>
    have hmem : src ∈ db.sources := List.mem_of_find?_eq_some hf
    have hp := List.find?_some hf
    simp only [Bool.and_eq_true, beq_iff_eq] at hp
    obtain ⟨hpid, hpt⟩ := hp
    intro t' ht'
    rw [deleteContentSource_fst_some db tid sid src hf] at ht' ⊢
    have ht'' : t' ∈ db.tenants.map (fun t =>
        if t.id == tid then
          { t with documentCount := t.documentCount + (-1),
                   storageUsedMb := t.storageUsedMb + (-(src.fileSizeMb : Int)) }
        else t) := ht'
    obtain ⟨t, ht, rfl⟩ := List.mem_map.mp ht''
    have hat := hacc t ht
    have hat1 : t.documentCount =
        ((db.sources.filter (fun s => s.tenantId == t.id)).length : Int) := hat.1
    have hat2 : t.storageUsedMb =
        ((db.sources.filter (fun s => s.tenantId == t.id)).map
          (fun s => (s.fileSizeMb : Int))).sum := hat.2
    by_cases hck : (t.id == tid) = true
    · rw [if_pos hck]
      have hte : t.id = tid := eq_of_beq hck
      have hsrcOwned : src ∈ db.sources.filter (fun s => s.tenantId == t.id) :=
        List.mem_filter.mpr ⟨hmem, by rw [hpt, hte]; exact beq_self_eq_true tid⟩
      have hnd2 : ((db.sources.filter (fun s => s.tenantId == t.id)).map
          (fun s => s.id)).Nodup :=
        List.Nodup.sublist (List.Sublist.map _ (List.filter_sublist _)) hnd
      have hkey := filter_unique_length_sum
        (db.sources.filter (fun s => s.tenantId == t.id)) sid src hnd2 hsrcOwned hpid
      constructor
      · show t.documentCount + (-1) =
          (((db.sources.filter (fun s => !(s.id == sid))).filter
            (fun s => s.tenantId == t.id)).length : Int)
        rw [filter_swap, hkey.1, hat1]
        ring
      · show t.storageUsedMb + (-(src.fileSizeMb : Int)) =
          (((db.sources.filter (fun s => !(s.id == sid))).filter
            (fun s => s.tenantId == t.id)).map (fun s => (s.fileSizeMb : Int))).sum
        rw [filter_swap, hkey.2, hat2]
        ring
    · rw [if_neg hck]
      have hne : t.id ≠ tid := by simpa using hck
      have huniq := List.inj_on_of_nodup_map hnd
      have hself : (db.sources.filter (fun s => s.tenantId == t.id)).filter
          (fun s => !(s.id == sid)) = db.sources.filter (fun s => s.tenantId == t.id) := by
        rw [List.filter_eq_self]
        intro s hs
        obtain ⟨hsl, hst⟩ := List.mem_filter.mp hs
        have hsneq : s.id ≠ sid := by
          intro hcon
          have hseq : s = src := huniq hsl hmem (by rw [hcon, hpid])
          apply hne
          rw [← eq_of_beq hst, hseq, hpt]
        simp [hsneq]
      constructor
      · show t.documentCount =
          (((db.sources.filter (fun s => !(s.id == sid))).filter
            (fun s => s.tenantId == t.id)).length : Int)
        rw [filter_swap, hself]
        exact hat1
      · show t.storageUsedMb =
          (((db.sources.filter (fun s => !(s.id == sid))).filter
            (fun s => s.tenantId == t.id)).map (fun s => (s.fileSizeMb : Int))).sum
        rw [filter_swap, hself]
        exact hat2

theorem ownedSources_mapSources (db : ContentDB) (f : ContentSource → ContentSource)
    (chks : List ContentChunkRow)
    (hft : ∀ s, (f s).tenantId = s.tenantId) (k : String) :
    ownedSources { db with sources := db.sources.map f, chunks := chks } k =
      (ownedSources db k).map f := by
  show (db.sources.map f).filter (fun s => s.tenantId == k) = _
  rw [List.filter_map]
  congr 1
  apply List.filter_congr
  intro s hs
  show ((f s).tenantId == k) = (s.tenantId == k)
  rw [hft]

theorem mapSources_preserves_accounting (db : ContentDB) (f : ContentSource → ContentSource)
    (chks : List ContentChunkRow)
    (hft : ∀ s, (f s).tenantId = s.tenantId) (hfs : ∀ s, (f s).fileSizeMb = s.fileSizeMb)
    (hacc : ∀ t ∈ db.tenants, tenantAccounting db t) :
    ∀ t ∈ db.tenants,
      tenantAccounting { db with sources := db.sources.map f, chunks := chks } t := by
  intro t ht
  have hat := hacc t ht
  constructor
  · show t.documentCount =
      ((ownedSources { db with sources := db.sources.map f, chunks := chks } t.id).length : Int)
    rw [ownedSources_mapSources db f chks hft t.id, List.length_map]
    exact hat.1
  · show t.storageUsedMb =
      ((ownedSources { db with sources := db.sources.map f, chunks := chks } t.id).map
        (fun s => (s.fileSizeMb : Int))).sum
    rw [ownedSources_mapSources db f chks hft t.id, List.map_map]
    have hco : ((fun s => (s.fileSizeMb : Int)) ∘ f) =
        (fun s : ContentSource => (s.fileSizeMb : Int)) := by
      funext s
      show ((f s).fileSizeMb : Int) = (s.fileSizeMb : Int)
      rw [hfs]
    rw [hco]
    exact hat.2

theorem setSourceStatus_preserves_accounting (db : ContentDB) (sid : String)
    (st : ProcStatus) (pr : Nat) (em : Option String)
    (hacc : ∀ t ∈ db.tenants, tenantAccounting db t) :
    ∀ t ∈ (setSourceStatus db sid st pr em).tenants,
      tenantAccounting (setSourceStatus db sid st pr em) t :=
  mapSources_preserves_accounting db
    (fun s => if s.id == sid then
      { s with status := st, progressPercentage := pr, errorMessage := em } else s)
    db.chunks
    (fun s => by by_cases h : (s.id == sid) = true <;> simp [h])
    (fun s => by by_cases h : (s.id == sid) = true <;> simp [h])
    hacc

theorem saveContentChunks_preserves_accounting (db : ContentDB) (src : ContentSource)
    (cs : List (List Char))
    (hacc : ∀ t ∈ db.tenants, tenantAccounting db t) :
    ∀ t ∈ (saveContentChunks db src cs).tenants,
      tenantAccounting (saveContentChunks db src cs) t :=
  mapSources_preserves_accounting db
    (fun s => if s.id == src.id then
      { s with totalChunks := cs.length, processedChunks := cs.length } else s)
    (db.chunks ++ cs.enum.map (fun ic =>
      { id := src.id ++ "#" ++ Nat.repr ic.1, sourceId := src.id,
        tenantId := src.tenantId, content := ic.2, chunkIndex := ic.1 }))
    (fun s => by by_cases h : (s.id == src.id) = true <;> simp [h])
    (fun s => by by_cases h : (s.id == src.id) = true <;> simp [h])
    hacc

/-- `_process_content_source` preserves the accounting invariant: status and
chunk bookkeeping never touch a source's tenant or recorded size, so the
tenants' counters stay consistent through every pipeline outcome. -/
theorem processContentSource_preserves_accounting
    (ext : ContentSource → Except String ContentData)
    (chk : ContentSource → ContentData → Except String (List (List Char)))
    (db : ContentDB) (sid : String)
    (hacc : ∀ t ∈ db.tenants, tenantAccounting db t) :
    ∀ t ∈ (processContentSource ext chk db sid).tenants,
      tenantAccounting (processContentSource ext chk db sid) t := by
  cases hf : findSourceById db sid with
  | none =>
    have hshape : processContentSource ext chk db sid = db := by
      simp only [processContentSource, hf]
    rw [hshape]
    exact hacc
  | some src =>
    have h1 := setSourceStatus_preserves_accounting db sid .processing 0 none hacc
    cases hext : ext src with
    | error m =>
      have hshape := processContentSource_fail ext chk db sid src m hf hext
      rw [hshape]
      exact setSourceStatus_preserves_accounting _ sid .failed 0 (some m) h1
    | ok data =>
      have h2 := setSourceStatus_preserves_accounting _ sid .chunking 25 none h1
      cases hchk : chk src data with
      | error m =>
        have hshape : processContentSource ext chk db sid =
            setSourceStatus (setSourceStatus (setSourceStatus db sid .processing 0 none)
              sid .chunking 25 none) sid .failed 0 (some m) := by
          simp only [processContentSource, hf, hext, hchk]
        rw [hshape]
        exact setSourceStatus_preserves_accounting _ sid .failed 0 (some m) h2
      | ok cs =>
        have hshape := processContentSource_ok ext chk db sid src data cs hf hext hchk
        rw [hshape]
        exact setSourceStatus_preserves_accounting _ sid .completed 100 none
          (saveContentChunks_preserves_accounting _ src cs
            (setSourceStatus_preserves_accounting _ sid .embedding 50 none h2))

/-- The queue consumer preserves the accounting invariant across any sequence
of processed sources. -/
theorem processQueue_preserves_accounting
    (ext : ContentSource → Except String ContentData)
    (chk : ContentSource → ContentData → Except String (List (List Char)))
    (queue : List String) (db : ContentDB)
    (hacc : ∀ t ∈ db.tenants, tenantAccounting db t) :
    ∀ t ∈ (processQueue ext chk db queue).tenants,
      tenantAccounting (processQueue ext chk db queue) t := by
  induction queue generalizing db with
  | nil => exact hacc
  | cons sid rest ih =>
    exact ih (processContentSource ext chk db sid)
      (processContentSource_preserves_accounting ext chk db sid hacc)
